import Mathlib

/-!
Verification development for the takopi backend-runner core.

The Python sources embedded here are `src/takopi/runners/claude.py` and
`src/takopi/runners/codex.py`, together with the parts of the shared
infrastructure they use.  Modules `takopi.model`, `takopi.runner` and
`takopi.utils.*` are not present in the repository snapshot; the few
facts about them that the runners rely on are modelled from the spec and
marked as such in their doc comments.

Decoded JSON lines are modelled by the inductive `JVal`; Python dict
semantics (`get` returning `None` for missing keys, truthiness, `str()`)
are given explicit counterparts.  Each runner's `_run` async generator is
modelled as a pure fold over the list of decoded lines, returning the
list of yielded events together with an optional raised exception.
-/

namespace Takopi

/-- A decoded JSON value.  JSON numbers are modelled as integers; no code
path distinguished by the claims inspects fractional values. -/
inductive JVal where
  | null : JVal
  | bool : Bool → JVal
  | num : Int → JVal
  | str : String → JVal
  | arr : List JVal → JVal
  | obj : List (String × JVal) → JVal
deriving Repr

namespace JVal

/-- Python truthiness of a decoded JSON value: `None`, `False`, `0`, `""`,
`[]` and `\x7b\x7d` are falsy, everything else is truthy. -/
def truthy : JVal → Bool
  | .null => false
  | .bool b => b
  | .num n => n != 0
  | .str s => s != ""
  | .arr xs => !xs.isEmpty
  | .obj kvs => !kvs.isEmpty

/-- Association-list lookup mirroring Python `dict` key lookup. -/
def lookupKey : List (String × JVal) → String → Option JVal
  | [], _ => none
  | (k, v) :: rest, key => if k = key then some v else lookupKey rest key

/-- Python `d.get(key)` on a dict: a missing key yields Python `None`,
which we identify with JSON `null` (as Python itself does). Only applied
under `isinstance(_, dict)` guards in the embedded code. -/
def dGet : JVal → String → JVal
  | .obj kvs, key => (lookupKey kvs key).getD .null
  | _, _ => .null

/-- Python `key in d` on a dict. -/
def hasKey : JVal → String → Bool
  | .obj kvs, key => (lookupKey kvs key).isSome
  | _, _ => false

/-- `isinstance(v, dict)`. -/
def isDict : JVal → Bool
  | .obj _ => true
  | _ => false

/-- `isinstance(v, str)`. -/
def isStr : JVal → Bool
  | .str _ => true
  | _ => false

/-- The payload of a string value, if any. -/
def asStr : JVal → Option String
  | .str s => some s
  | _ => none

/-- Python `v == s` for a string literal `s` (values of other types
compare unequal). -/
def eqs (v : JVal) (s : String) : Bool :=
  match v with
  | .str a => a = s
  | _ => false

/-- Python `v is True` (the JSON decoder interns booleans). -/
def isTrue : JVal → Bool
  | .bool true => true
  | _ => false

/-- Python `v is None`. -/
def isNull : JVal → Bool
  | .null => true
  | _ => false

end JVal

/-- Python exceptions that the embedded code can raise while processing a
decoded value (iterating a non-iterable, calling `.get` on a non-dict,
joining non-string parts). -/
inductive PyErr where
  | typeError : PyErr
  | attributeError : PyErr
deriving Repr, DecidableEq

mutual
/-- Python `repr` of a decoded JSON value, used by `str()` on containers.
String escaping inside containers is not reproduced; no claim inspects
the rendering of containers. -/
def pyRepr : JVal → String
  | .null => "None"
  | .bool true => "True"
  | .bool false => "False"
  | .num n => toString n
  | .str s => "'" ++ s ++ "'"
  | .arr xs => "[" ++ pyReprList xs ++ "]"
  | .obj kvs => "\x7b" ++ pyReprObj kvs ++ "\x7d"

/-- Comma-separated `repr`s of list elements. -/
def pyReprList : List JVal → String
  | [] => ""
  | [x] => pyRepr x
  | x :: xs => pyRepr x ++ ", " ++ pyReprList xs

/-- Comma-separated `repr`s of dict items. -/
def pyReprObj : List (String × JVal) → String
  | [] => ""
  | [(k, v)] => "'" ++ k ++ "': " ++ pyRepr v
  | (k, v) :: kvs => "'" ++ k ++ "': " ++ pyRepr v ++ ", " ++ pyReprObj kvs
end

/-- Python `str()` of a decoded JSON value. -/
def pyStr : JVal → String
  | .null => "None"
  | .bool true => "True"
  | .bool false => "False"
  | .num n => toString n
  | .str s => s
  | .arr xs => pyRepr (.arr xs)
  | .obj kvs => pyRepr (.obj kvs)

/-- Python iteration (`for x in v`) over a decoded value: lists yield
their elements, strings their characters, dicts their keys; numbers,
booleans and `None` raise `TypeError`. -/
def pyIter : JVal → Except PyErr (List JVal)
  | .arr xs => .ok xs
  | .str s => .ok (s.toList.map fun c => .str (String.singleton c))
  | .obj kvs => .ok (kvs.map fun kv => .str kv.1)
  | _ => .error .typeError

/-- Truthiness of an `Optional[str]`: `None` and `""` are falsy. -/
def optStrTruthy : Option String → Bool
  | none => false
  | some s => s != ""

/-- Python `x or ""` on an `Optional[str]`. -/
def orEmpty (o : Option String) : String :=
  if optStrTruthy o then o.getD "" else ""

/-- Insertion into a Python dict modelled as an association list: an
existing key keeps its position and gets the new value, a new key is
appended. -/
def dictInsert : List (String × JVal) → String → JVal → List (String × JVal)
  | [], key, v => [(key, v)]
  | (k, w) :: rest, key, v =>
      if k = key then (k, v) :: rest else (k, w) :: dictInsert rest key v

/-- `dict.update` with the items of a second dict, in order. -/
def dictUpdate (d : List (String × JVal)) (upd : List (String × JVal)) :
    List (String × JVal) :=
  upd.foldl (fun acc kv => dictInsert acc kv.1 kv.2) d

/-! ## The shared event model

Modelled from the spec: `takopi.model` is not in the repository
snapshot.  The spec (section 3) fixes the three event variants and the
value types `ResumeToken` and `Action`; every field below is one the two
runner sources construct or read. -/

/-- `ResumeToken` — engine identifier plus opaque session value; equal
iff both fields are equal. -/
structure ResumeToken where
  engine : String
  value : String
deriving Repr, DecidableEq

/-- The closed action-kind vocabulary. -/
inductive ActionKind where
  | command | tool | file_change | web_search | note | warning | turn
deriving Repr, DecidableEq

/-- Phases of an action's lifecycle. -/
inductive ActionPhase where
  | started | updated | completed
deriving Repr, DecidableEq

/-- Severity levels carried by action events. -/
inductive ActionLevel where
  | debug | info | warning | error
deriving Repr, DecidableEq

/-- `Action` — one unit of backend-performed work. -/
structure Action where
  id : String
  kind : ActionKind
  title : String
  detail : List (String × JVal)
deriving Repr

/-- Payload of a `StartedEvent`. -/
structure StartedData where
  engine : String
  resume : ResumeToken
  title : String
  meta : Option (List (String × JVal))
deriving Repr

/-- Payload of an `ActionEvent`. -/
structure ActionData where
  engine : String
  action : Action
  phase : ActionPhase
  ok : Option Bool
  message : Option String
  level : Option ActionLevel
deriving Repr

/-- Payload of a `CompletedEvent`. -/
structure CompletedData where
  engine : String
  ok : Bool
  answer : String
  resume : Option ResumeToken
  error : Option String
  usage : Option JVal
deriving Repr

/-- The shared event vocabulary produced by every backend. -/
inductive TakopiEvent where
  | started : StartedData → TakopiEvent
  | action : ActionData → TakopiEvent
  | completed : CompletedData → TakopiEvent
deriving Repr

namespace TakopiEvent

/-- Whether an event is a `CompletedEvent`. -/
def isCompleted : TakopiEvent → Bool
  | .completed _ => true
  | _ => false

/-- Whether an event is a `StartedEvent`. -/
def isStarted : TakopiEvent → Bool
  | .started _ => true
  | _ => false

end TakopiEvent

/-- One decoded line of subprocess output.  Modelled from the spec
(section 4.1): `takopi.utils.streams.iter_jsonl` is not in the snapshot;
the spec says a line that fails to parse yields a sentinel carrying the
raw line and no decoded value. -/
structure JsonLine where
  data : Option JVal
  raw : String
deriving Repr

/-- Modelled from the spec: `takopi.utils.paths` is not in the snapshot.
The spec only says shell-command and path titles are abbreviated by a
deterministic path-relativization rule, so the two functions are kept
abstract as parameters of the translators. -/
structure PathsFns where
  relativize_command : String → String
  relativize_path : String → String

/-- A trivial instance of the abstract path-relativization functions,
used to evaluate the model on concrete inputs. -/
def idPaths : PathsFns := ⟨fun s => s, fun s => s⟩

/-! ## The claude backend translator (`takopi/runners/claude.py`) -/

namespace Claude

/-- `ENGINE: EngineId = EngineId("claude")`. -/
def ENGINE : String := "claude"

/-- Per-run translator state (`ClaudeStreamState`): pending tool calls
keyed by tool-use id, and the last assistant free-text fragment. -/
structure ClaudeStreamState where
  pending_actions : List (String × Action)
  last_assistant_text : Option String
deriving Repr

/-- The empty initial `ClaudeStreamState`. -/
def initStreamState : ClaudeStreamState := ⟨[], none⟩

/-- Lookup in the pending-action dict. -/
def pendingLookup : List (String × Action) → String → Option Action
  | [], _ => none
  | (k, a) :: rest, key => if k = key then some a else pendingLookup rest key

/-- `state.pending_actions[id] = action` (dict item assignment). -/
def pendingInsert : List (String × Action) → String → Action → List (String × Action)
  | [], key, a => [(key, a)]
  | (k, b) :: rest, key, a =>
      if k = key then (k, a) :: rest else (k, b) :: pendingInsert rest key a

/-- `state.pending_actions.pop(id, None)`, the removal part. -/
def pendingRemove : List (String × Action) → String → List (String × Action)
  | [], _ => []
  | (k, a) :: rest, key =>
      if k = key then rest else (k, a) :: pendingRemove rest key

/-- `_action_event` — build an `ActionEvent` for the claude engine. -/
def _action_event (phase : ActionPhase) (action : Action) (ok : Option Bool)
    (message : Option String) (level : Option ActionLevel) : TakopiEvent :=
  .action ⟨ENGINE, action, phase, ok, message, level⟩

/-- `_note_completed` — a synthetic completed warning action. -/
def _note_completed (action_id message : String) (ok : Bool)
    (detail : Option (List (String × JVal))) : TakopiEvent :=
  _action_event .completed ⟨action_id, .warning, message, detail.getD []⟩
    (some ok) (some message) (some (if ok then .info else .warning))

/-- The string parts collected from a tool-result content list. -/
def _collect_result_parts : List JVal → List String
  | [] => []
  | item :: rest =>
      let tail := _collect_result_parts rest
      match item with
      | .obj kvs =>
          let d := JVal.obj kvs
          if (d.dGet "type").eqs "text" && (d.dGet "text").isStr then
            ((d.dGet "text").asStr.getD "") :: tail
          else if (d.dGet "text").isStr then
            ((d.dGet "text").asStr.getD "") :: tail
          else tail
      | .str s => s :: tail
      | _ => tail

/-- `_normalize_tool_result`. -/
def _normalize_tool_result : JVal → String
  | .arr items =>
      String.intercalate "\n" ((_collect_result_parts items).filter (· ≠ ""))
  | .null => ""
  | .str s => s
  | v => pyStr v

/-- `_tool_input_path` — first of `file_path`/`path` bound to a nonempty
string. -/
def _tool_input_path (tool_input : List (String × JVal)) : Option String :=
  let tryKey := fun (k : String) =>
    match (JVal.obj tool_input).dGet k with
    | .str s => if s = "" then none else some s
    | _ => none
  (tryKey "file_path").orElse fun _ => tryKey "path"

/-- `_tool_kind_and_title` — classify a claude tool invocation. -/
def _tool_kind_and_title (paths : PathsFns) (name : String)
    (tool_input : List (String × JVal)) : ActionKind × String :=
  let ti := JVal.obj tool_input
  if name = "Bash" || name = "Shell" || name = "KillShell" then
    let command := ti.dGet "command"
    (.command, paths.relativize_command
      (pyStr (if command.truthy then command else .str name)))
  else if name = "Edit" || name = "Write" || name = "NotebookEdit" ||
      name = "MultiEdit" then
    match _tool_input_path tool_input with
    | some path => (.file_change, paths.relativize_path path)
    | none => (.file_change, name)
  else if name = "Read" then
    match _tool_input_path tool_input with
    | some path => (.tool, "read: `" ++ paths.relativize_path path ++ "`")
    | none => (.tool, "read")
  else if name = "Glob" then
    let pattern := ti.dGet "pattern"
    if pattern.truthy then (.tool, "glob: `" ++ pyStr pattern ++ "`")
    else (.tool, "glob")
  else if name = "Grep" then
    let pattern := ti.dGet "pattern"
    if pattern.truthy then (.tool, "grep: " ++ pyStr pattern)
    else (.tool, "grep")
  else if name = "WebSearch" then
    let query := ti.dGet "query"
    (.web_search, pyStr (if query.truthy then query else .str "search"))
  else if name = "WebFetch" then
    let url := ti.dGet "url"
    (.web_search, pyStr (if url.truthy then url else .str "fetch"))
  else if name = "TodoWrite" || name = "TodoRead" then
    (.note, if name = "TodoWrite" then "update todos" else "read todos")
  else if name = "AskUserQuestion" then
    (.note, "ask user")
  else if name = "Task" || name = "Agent" then
    let desc :=
      if (ti.dGet "description").truthy then ti.dGet "description"
      else ti.dGet "prompt"
    (.tool, if desc.truthy then pyStr desc else name)
  else (.tool, name)

/-- `_tool_action` — build the `Action` for a `tool_use` content block
(`None` when the block has no usable id). -/
def _tool_action (paths : PathsFns) (content : JVal)
    (message_id parent_tool_use_id : Option String) : Option Action :=
  match content.dGet "id" with
  | .str tool_id =>
      if tool_id = "" then none
      else
        let nameVal := content.dGet "name"
        let tool_name := if nameVal.truthy then pyStr nameVal else "tool"
        let tool_input :=
          match content.dGet "input" with
          | .obj kvs => kvs
          | _ => []
        let kt := _tool_kind_and_title paths tool_name tool_input
        let detail := [("name", JVal.str tool_name), ("input", JVal.obj tool_input)]
        let detail :=
          if optStrTruthy message_id then
            detail ++ [("message_id", JVal.str (message_id.getD ""))]
          else detail
        let detail :=
          if optStrTruthy parent_tool_use_id then
            detail ++ [("parent_tool_use_id", JVal.str (parent_tool_use_id.getD ""))]
          else detail
        let detail :=
          if kt.1 = ActionKind.file_change then
            match _tool_input_path tool_input with
            | some path =>
                detail ++ [("changes",
                  JVal.arr [.obj [("path", .str path), ("kind", .str "update")]])]
            | none => detail
          else detail
        some ⟨tool_id, kt.1, kt.2, detail⟩
  | _ => none

/-- `_tool_result_event` — completed action event for a tool result. -/
def _tool_result_event (content : JVal) (action : Action)
    (message_id : Option String) : TakopiEvent :=
  let is_error := (content.dGet "is_error").isTrue
  let normalized := _normalize_tool_result (content.dGet "content")
  let preview := normalized
  let detail := dictUpdate action.detail
    [("tool_use_id", content.dGet "tool_use_id"),
     ("result_preview", .str preview),
     ("result_len", .num normalized.length),
     ("is_error", .bool is_error)]
  let detail :=
    if optStrTruthy message_id then
      dictInsert detail "message_id" (.str (message_id.getD ""))
    else detail
  _action_event .completed ⟨action.id, action.kind, action.title, detail⟩
    (some (!is_error)) none none

/-- The item scan inside `_extract_error` over an `errors` list. -/
def _extract_error_items : List JVal → Option String
  | [] => none
  | item :: rest =>
      match item with
      | .obj kvs =>
          let d := JVal.obj kvs
          let m := if (d.dGet "message").truthy then d.dGet "message"
                   else d.dGet "error"
          match m with
          | .str s => if s = "" then _extract_error_items rest else some s
          | _ => _extract_error_items rest
      | .str s => if s = "" then _extract_error_items rest else some s
      | _ => _extract_error_items rest

/-- `_extract_error`. -/
def _extract_error (event : JVal) : Option String :=
  let step1 : Option String :=
    match event.dGet "error" with
    | .str s => if s = "" then none else some s
    | _ => none
  match step1 with
  | some s => some s
  | none =>
      let step2 : Option String :=
        match event.dGet "errors" with
        | .arr items => _extract_error_items items
        | _ => none
      match step2 with
      | some s => some s
      | none =>
          if (event.dGet "is_error").truthy then some "claude run failed" else none

/-- `_usage_payload` — cost/usage keys forwarded verbatim. -/
def _usage_payload (event : JVal) : List (String × JVal) :=
  ["total_cost_usd", "duration_ms", "duration_api_ms", "num_turns",
   "usage", "modelUsage"].foldl
    (fun acc key =>
      let v := event.dGet key
      if v.isNull then acc else acc ++ [(key, v)]) []

/-- The fold over `assistant` content blocks. -/
def _assistant_blocks (paths : PathsFns) (message_id parent : Option String) :
    List JVal → List TakopiEvent → ClaudeStreamState →
    List TakopiEvent × ClaudeStreamState
  | [], out, st => (out, st)
  | content :: rest, out, st =>
      match content with
      | .obj kvs =>
          let c := JVal.obj kvs
          if (c.dGet "type").eqs "tool_use" then
            match _tool_action paths c message_id parent with
            | some action =>
                let st' :=
                  { st with
                    pending_actions := pendingInsert st.pending_actions action.id action }
                _assistant_blocks paths message_id parent rest
                  (out ++ [_action_event .started action none none none]) st'
            | none => _assistant_blocks paths message_id parent rest out st
          else if (c.dGet "type").eqs "text" then
            match c.dGet "text" with
            | .str s =>
                if s = "" then _assistant_blocks paths message_id parent rest out st
                else _assistant_blocks paths message_id parent rest out
                  { st with last_assistant_text := some s }
            | _ => _assistant_blocks paths message_id parent rest out st
          else _assistant_blocks paths message_id parent rest out st
      | _ => _assistant_blocks paths message_id parent rest out st

/-- The fold over `user` content blocks (tool results). -/
def _user_blocks (message_id : Option String) :
    List JVal → List TakopiEvent → ClaudeStreamState →
    List TakopiEvent × ClaudeStreamState
  | [], out, st => (out, st)
  | content :: rest, out, st =>
      match content with
      | .obj kvs =>
          let c := JVal.obj kvs
          if (c.dGet "type").eqs "tool_result" then
            match c.dGet "tool_use_id" with
            | .str tid =>
                if tid = "" then _user_blocks message_id rest out st
                else
                  let popped := pendingLookup st.pending_actions tid
                  let st' :=
                    { st with
                      pending_actions := pendingRemove st.pending_actions tid }
                  let action := popped.getD ⟨tid, .tool, "tool result", []⟩
                  _user_blocks message_id rest
                    (out ++ [_tool_result_event c action message_id]) st'
            | _ => _user_blocks message_id rest out st
          else _user_blocks message_id rest out st
      | _ => _user_blocks message_id rest out st

/-- Warning events for `result.permission_denials`, with the running
`enumerate` index. -/
def _denial_events : Nat → List JVal → List TakopiEvent
  | _, [] => []
  | idx, denial :: rest =>
      let tail := _denial_events (idx + 1) rest
      match denial with
      | .obj kvs =>
          let d := JVal.obj kvs
          let denial_title :=
            match d.dGet "tool_name" with
            | .str s => if s = "" then "permission denied"
                        else "permission denied: " ++ s
            | _ => "permission denied"
          let action_id :=
            match d.dGet "tool_use_id" with
            | .str s => if s = "" then "claude.permission." ++ toString idx
                        else "claude.permission." ++ s
            | _ => "claude.permission." ++ toString idx
          _action_event .completed ⟨action_id, .warning, denial_title, kvs⟩
            (some false) none (some .warning) :: tail
      | _ => tail

/-- `translate_claude_event` — one decoded claude event to zero or more
shared events, threading the per-run state; `PyErr` models the
`TypeError`/`AttributeError` the Python code raises on ill-shaped
values. -/
def translate_claude_event (paths : PathsFns) (event : JVal) (title : String)
    (st : ClaudeStreamState) :
    Except PyErr (List TakopiEvent × ClaudeStreamState) :=
  if event.isDict then
    let etype := event.dGet "type"
    if etype.eqs "system" && (event.dGet "subtype").eqs "init" then
      let session_id := event.dGet "session_id"
      if session_id.truthy then
        let model := event.dGet "model"
        let event_title := if model.truthy then pyStr model else title
        let meta :=
          ["cwd", "tools", "permissionMode", "output_style",
           "apiKeySource"].foldl
            (fun acc key =>
              if event.hasKey key then acc ++ [(key, event.dGet key)] else acc) []
        let meta :=
          if event.hasKey "mcp_servers" then
            meta ++ [("mcp_servers", event.dGet "mcp_servers")]
          else meta
        .ok ([.started ⟨ENGINE, ⟨ENGINE, pyStr session_id⟩, event_title,
          if meta.isEmpty then none else some meta⟩], st)
      else .ok ([], st)
    else if etype.eqs "assistant" then
      let message := event.dGet "message"
      if message.isDict then
        let message_id := (message.dGet "id").asStr
        let parent := (event.dGet "parent_tool_use_id").asStr
        match message.dGet "content" with
        | .arr blocks => .ok (_assistant_blocks paths message_id parent blocks [] st)
        | _ => .ok ([], st)
      else .ok ([], st)
    else if etype.eqs "user" then
      let message := event.dGet "message"
      if message.isDict then
        let message_id := (message.dGet "id").asStr
        match message.dGet "content" with
        | .arr blocks => .ok (_user_blocks message_id blocks [] st)
        | _ => .ok ([], st)
      else .ok ([], st)
    else if etype.eqs "result" then
      let pd := event.dGet "permission_denials"
      match pyIter (if pd.truthy then pd else .arr []) with
      | .error e => .error e
      | .ok items =>
          let denials := _denial_events 0 items
          let ok := !(event.dGet "is_error").truthy
          let result_text :=
            match event.dGet "result" with
            | .str s => s
            | _ => ""
          let result_text :=
            if ok && result_text = "" && optStrTruthy st.last_assistant_text then
              st.last_assistant_text.getD ""
            else result_text
          let resume_value := event.dGet "session_id"
          let resume :=
            if resume_value.truthy then
              some (ResumeToken.mk ENGINE (pyStr resume_value))
            else none
          let error := if ok then none else _extract_error event
          let usage := _usage_payload event
          .ok (denials ++ [.completed ⟨ENGINE, ok, result_text, resume, error,
            if usage.isEmpty then none else some (.obj usage)⟩], st)
    else .ok ([], st)
  else .error .attributeError

end Claude

/-- An exception escaping a runner's event generator: the deliberate
`RuntimeError`s of the session checks, the `RuntimeError` anyio raises
when a task re-acquires a `Lock` it already holds, and Python-level
errors from ill-shaped values. -/
inductive RunError where
  | wrongEngine : RunError
  | sessionMismatch : RunError
  | lockReacquire : RunError
  | pyErr : PyErr → RunError
deriving Repr, DecidableEq

namespace Claude

/-- Mutable state of `ClaudeRunner._run`, between two decoded lines.
`locks_held` models which session locks this run's task currently holds
(the registry hands out one lock per token, so tokens identify locks). -/
structure ClaudeRunState where
  did_emit_completed : Bool
  note_seq : Nat
  st : ClaudeStreamState
  found_session : Option ResumeToken
  session_lock : Option ResumeToken
  session_lock_acquired : Bool
  locks_held : List ResumeToken
deriving Repr

/-- Initial state of a claude run. -/
def initRunState : ClaudeRunState :=
  ⟨false, 0, initStreamState, none, none, false, []⟩

/-- The inner `for out_evt in translate_claude_event(...)` loop of
`ClaudeRunner._run`: session checks and lock acquisition on
`StartedEvent`s, `break` after a `CompletedEvent`.  Returns the events
yielded before a possible raise. -/
def claude_consume (expected : Option ResumeToken) :
    List TakopiEvent → ClaudeRunState →
    List TakopiEvent × Except RunError ClaudeRunState
  | [], s => ([], .ok s)
  | e :: rest, s =>
      match e with
      | .started sd =>
          if sd.resume.engine = ENGINE then
            match expected with
            | some t =>
                if sd.resume = t then
                  let s' := { s with found_session := some sd.resume }
                  let r := claude_consume expected rest s'
                  (e :: r.1, r.2)
                else ([], .error .sessionMismatch)
            | none =>
                if sd.resume ∈ s.locks_held then ([], .error .lockReacquire)
                else
                  let s' := { s with
                    locks_held := sd.resume :: s.locks_held,
                    session_lock := some sd.resume,
                    session_lock_acquired := true,
                    found_session := some sd.resume }
                  let r := claude_consume expected rest s'
                  (e :: r.1, r.2)
          else ([], .error .wrongEngine)
      | .completed _ => ([e], .ok { s with did_emit_completed := true })
      | .action _ =>
          let r := claude_consume expected rest s
          (e :: r.1, r.2)

/-- Processing of one decoded line by `ClaudeRunner._run`. -/
def claude_step (paths : PathsFns) (title : String)
    (expected : Option ResumeToken) (s : ClaudeRunState) (jl : JsonLine) :
    List TakopiEvent × Except RunError ClaudeRunState :=
  if s.did_emit_completed then ([], .ok s)
  else
    match jl.data with
    | none =>
        ([_note_completed ("claude.note." ++ toString (s.note_seq + 1))
            "invalid JSON from claude; ignoring line" false
            (some [("line", .str jl.raw)])],
         .ok { s with note_seq := s.note_seq + 1 })
    | some evt =>
        match translate_claude_event paths evt title s.st with
        | .error e => ([], .error (.pyErr e))
        | .ok (evts, st') => claude_consume expected evts { s with st := st' }

/-- The line loop of `ClaudeRunner._run`. -/
def claude_run_lines (paths : PathsFns) (title : String)
    (expected : Option ResumeToken) :
    List JsonLine → ClaudeRunState →
    List TakopiEvent × Except RunError ClaudeRunState
  | [], s => ([], .ok s)
  | jl :: rest, s =>
      match claude_step paths title expected s jl with
      | (es, .error e) => (es, .error e)
      | (es, .ok s') =>
          let r := claude_run_lines paths title expected rest s'
          (es ++ r.1, r.2)

/-- `ClaudeRunner._run` as a pure function of the decoded line stream,
the exit code and the drained stderr tail: the events yielded to the
caller, plus the exception that escaped the generator, if any. -/
def claude_run (paths : PathsFns) (title : String)
    (resume_token : Option ResumeToken) (lines : List JsonLine) (rc : Int)
    (stderr_tail : String) : List TakopiEvent × Option RunError :=
  match claude_run_lines paths title resume_token lines initRunState with
  | (evs, .error e) => (evs, some e)
  | (evs, .ok s) =>
      if s.did_emit_completed then (evs, none)
      else if rc = 0 then
        match s.found_session with
        | none =>
            (evs ++ [.completed ⟨ENGINE, false, "", resume_token,
              some "claude finished but no session_id was captured", none⟩], none)
        | some fs =>
            (evs ++ [.completed ⟨ENGINE, false, orEmpty s.st.last_assistant_text,
              some fs, some "claude finished without a result event", none⟩], none)
      else
        let message := "claude failed (rc=" ++ toString rc ++ ")."
        let note := _note_completed ("claude.note." ++ toString (s.note_seq + 1))
          message false (some [("stderr_tail", .str stderr_tail)])
        let resume_for_completed := s.found_session.orElse fun _ => resume_token
        (evs ++ [note,
          .completed ⟨ENGINE, false, "", resume_for_completed, some message, none⟩],
         none)

end Claude

/-! ## The codex backend translator and runner (`takopi/runners/codex.py`) -/

namespace Codex

/-- `ENGINE: EngineId = EngineId("codex")`. -/
def ENGINE : String := "codex"

/-- `_ACTION_KIND_MAP.get(item_type)` — dict lookup, so non-string item
types never match. -/
def _ACTION_KIND_MAP (item_type : JVal) : Option ActionKind :=
  if item_type.eqs "command_execution" then some .command
  else if item_type.eqs "mcp_tool_call" then some .tool
  else if item_type.eqs "tool_call" then some .tool
  else if item_type.eqs "web_search" then some .web_search
  else if item_type.eqs "file_change" then some .file_change
  else if item_type.eqs "reasoning" then some .note
  else if item_type.eqs "todo_list" then some .note
  else none

/-- `_started_event` — note that the engine field is copied from the
token, not hard-wired. -/
def _started_event (token : ResumeToken) (title : String) : TakopiEvent :=
  .started ⟨token.engine, token, title, none⟩

/-- `_completed_event`. -/
def _completed_event (resume : Option ResumeToken) (ok : Bool) (answer : String)
    (error : Option String) (usage : Option JVal) : TakopiEvent :=
  .completed ⟨ENGINE, ok, answer, resume, error, usage⟩

/-- `_action_event` for the codex engine. -/
def _action_event (phase : ActionPhase) (action_id : String) (kind : ActionKind)
    (title : String) (detail : Option (List (String × JVal))) (ok : Option Bool)
    (message : Option String) (level : Option ActionLevel) : TakopiEvent :=
  .action ⟨ENGINE, ⟨action_id, kind, title, detail.getD []⟩, phase, ok, message, level⟩

/-- `_note_completed` for the codex engine. -/
def _note_completed (action_id message : String) (ok : Bool)
    (detail : Option (List (String × JVal))) : TakopiEvent :=
  _action_event .completed action_id .warning message detail (some ok)
    (some message) (some (if ok then .info else .warning))

/-- `_short_tool_name` — `".".join` raises `TypeError` when a truthy
`server`/`tool` field is not a string. -/
def _short_tool_name (item : JVal) : Except PyErr String :=
  let parts := [item.dGet "server", item.dGet "tool"].filter fun v => v.truthy
  if parts.all (fun v => v.isStr) then
    let name := String.intercalate "." (parts.map fun v => v.asStr.getD "")
    .ok (if name = "" then "tool" else name)
  else .error .typeError

/-- `_summarize_tool_result`. -/
def _summarize_tool_result (result : JVal) : Option (List (String × JVal)) :=
  match result with
  | .obj _ =>
      let content := result.dGet "content"
      let summary : List (String × JVal) :=
        match content with
        | .arr xs => [("content_blocks", .num xs.length)]
        | .null => []
        | _ => [("content_blocks", .num 1)]
      let structured_key : Option String :=
        if result.hasKey "structured_content" then some "structured_content"
        else if result.hasKey "structured" then some "structured"
        else none
      let summary :=
        match structured_key with
        | some k => summary ++ [("has_structured", .bool (¬ (result.dGet k).isNull))]
        | none => summary
      if summary.isEmpty then none else some summary
  | _ => none

/-- The list comprehension over `changes` inside
`_format_change_summary`; a non-dict element raises. -/
def _change_paths : List JVal → Except PyErr (List JVal)
  | [] => .ok []
  | c :: rest =>
      match c with
      | .obj _ =>
          match _change_paths rest with
          | .error e => .error e
          | .ok tail =>
              let p := c.dGet "path"
              .ok (if p.truthy then p :: tail else tail)
      | _ => .error .attributeError

/-- `_format_change_summary`. -/
def _format_change_summary (item : JVal) : Except PyErr String :=
  let cval := item.dGet "changes"
  let changes := if cval.truthy then cval else .arr []
  match pyIter changes with
  | .error e => .error e
  | .ok elems =>
      match _change_paths elems with
      | .error e => .error e
      | .ok paths =>
          if paths.isEmpty then
            let total := elems.length
            if total ≤ 0 then .ok "files"
            else .ok (toString total ++ " files")
          else .ok (String.intercalate ", " (paths.map pyStr))

/-- `_TodoSummary`. -/
structure _TodoSummary where
  done : Nat
  total : Nat
  next_text : Option String
deriving Repr, DecidableEq

/-- The item fold of `_summarize_todo_list`. -/
def _todo_fold : List JVal → _TodoSummary → _TodoSummary
  | [], acc => acc
  | raw_item :: rest, acc =>
      match raw_item with
      | .obj _ =>
          let acc := { acc with total := acc.total + 1 }
          if (raw_item.dGet "completed").isTrue then
            _todo_fold rest { acc with done := acc.done + 1 }
          else
            match acc.next_text with
            | some _ => _todo_fold rest acc
            | none =>
                let text := raw_item.dGet "text"
                let nt := if text.isNull then none else some (pyStr text)
                _todo_fold rest { acc with next_text := nt }
      | _ => _todo_fold rest acc

/-- `_summarize_todo_list`. -/
def _summarize_todo_list (items : JVal) : _TodoSummary :=
  match items with
  | .arr xs => _todo_fold xs ⟨0, 0, none⟩
  | _ => ⟨0, 0, none⟩

/-- `_todo_title`. -/
def _todo_title (summary : _TodoSummary) : String :=
  if summary.total = 0 then "todo"
  else if optStrTruthy summary.next_text then
    "todo " ++ toString summary.done ++ "/" ++ toString summary.total ++ ": " ++
      summary.next_text.getD ""
  else
    "todo " ++ toString summary.done ++ "/" ++ toString summary.total ++ ": done"

/-- The `command_execution` block of `_translate_item_event`. -/
def _translate_command_item (paths : PathsFns) (item : JVal)
    (action_id : String) (phase : ActionPhase) : List TakopiEvent :=
  let cmd := item.dGet "command"
  let title := paths.relativize_command
    (pyStr (if cmd.truthy then cmd else .str ""))
  if phase = ActionPhase.started ∨ phase = ActionPhase.updated then
    [_action_event phase action_id .command title none none none none]
  else
    let exit_code := item.dGet "exit_code"
    let ok0 := ¬ (item.dGet "status").eqs "failed"
    -- `isinstance(exit_code, int)` also holds for Python booleans, and
    -- `False == 0` is true.
    let ok :=
      match exit_code with
      | .num n => ok0 && n = 0
      | .bool b => ok0 && b = false
      | _ => ok0
    let detail := [("exit_code", exit_code), ("status", item.dGet "status")]
    [_action_event .completed action_id .command title (some detail) (some ok)
      none none]

/-- The `mcp_tool_call`/`tool_call` block of `_translate_item_event`. -/
def _translate_tool_item (item : JVal) (item_type : JVal) (action_id : String)
    (phase : ActionPhase) : Except PyErr (List TakopiEvent) :=
  match _short_tool_name item with
  | .error e => .error e
  | .ok tn =>
      let detail0 := [("server", item.dGet "server"),
        ("tool", item.dGet "tool"),
        ("status", item.dGet "status")]
      let detail0 :=
        if item.hasKey "arguments" then
          detail0 ++ [("arguments", item.dGet "arguments")]
        else detail0
      let tt : String × List (String × JVal) :=
        if item_type.eqs "tool_call" then
          let nameVal := item.dGet "name"
          let tool_name2 := if nameVal.truthy then pyStr nameVal else "tool"
          let d := [("name", nameVal), ("status", item.dGet "status")]
          let d :=
            if item.hasKey "arguments" then
              d ++ [("arguments", item.dGet "arguments")]
            else d
          (tool_name2, d)
        else (tn, detail0)
      let title := tt.1
      let detail := tt.2
      if phase = ActionPhase.started ∨ phase = ActionPhase.updated then
        .ok [_action_event phase action_id .tool title (some detail) none
          none none]
      else
        let errv := item.dGet "error"
        let ok := (¬ (item.dGet "status").eqs "failed") && (¬ errv.truthy)
        let detail :=
          if errv.truthy then
            dictInsert detail "error_message"
              (.str (pyStr (match errv with
                | .obj _ => errv.dGet "message"
                | _ => errv)))
          else detail
        let detail :=
          match _summarize_tool_result (item.dGet "result") with
          | some summ => dictInsert detail "result_summary" (.obj summ)
          | none => detail
        .ok [_action_event .completed action_id .tool title (some detail)
          (some ok) none none]

/-- The `web_search` block of `_translate_item_event`. -/
def _translate_web_search_item (item : JVal) (action_id : String)
    (phase : ActionPhase) : List TakopiEvent :=
  let q := item.dGet "query"
  let title := if q.truthy then pyStr q else ""
  let detail := [("query", item.dGet "query")]
  if phase = ActionPhase.started ∨ phase = ActionPhase.updated then
    [_action_event phase action_id .web_search title (some detail) none
      none none]
  else
    [_action_event .completed action_id .web_search title (some detail)
      (some true) none none]

/-- The `file_change` block of `_translate_item_event`. -/
def _translate_file_change_item (item : JVal) (action_id : String)
    (phase : ActionPhase) : Except PyErr (List TakopiEvent) :=
  if phase = ActionPhase.completed then
    match _format_change_summary item with
    | .error e => .error e
    | .ok title =>
        let cval := item.dGet "changes"
        let detail :=
          [("changes", if cval.truthy then cval else .arr []),
           ("status", item.dGet "status"),
           ("error", item.dGet "error")]
        let ok := ¬ (item.dGet "status").eqs "failed"
        .ok [_action_event .completed action_id .file_change title
          (some detail) (some ok) none none]
  else .ok []

/-- The `reasoning`/`todo_list` block of `_translate_item_event`. -/
def _translate_note_item (item : JVal) (item_type : JVal) (action_id : String)
    (phase : ActionPhase) : List TakopiEvent :=
  let td : String × Option (List (String × JVal)) :=
    if item_type.eqs "todo_list" then
      let summary := _summarize_todo_list (item.dGet "items")
      (_todo_title summary,
       some [("done", .num summary.done), ("total", .num summary.total)])
    else
      let text := item.dGet "text"
      (if text.truthy then pyStr text else "", none)
  if phase = ActionPhase.started ∨ phase = ActionPhase.updated then
    [_action_event phase action_id .note td.1 td.2 none none none]
  else
    [_action_event .completed action_id .note td.1 td.2 (some true) none none]

/-- The `error` item block of `_translate_item_event`. -/
def _translate_error_item (item : JVal) (action_id : String)
    (phase : ActionPhase) : List TakopiEvent :=
  if phase = ActionPhase.completed then
    let message :=
      if (item.dGet "message").truthy then pyStr (item.dGet "message")
      else "codex item error"
    [_action_event .completed action_id .warning message
      (some [("message", .str message)]) (some false) (some message)
      (some .warning)]
  else []

/-- `_translate_item_event` — one `item.*` payload to shared events; the
per-kind blocks above carry the bodies. -/
def _translate_item_event (paths : PathsFns) (etype : String) (item : JVal) :
    Except PyErr (List TakopiEvent) :=
  if item.isDict then
    let item_type0 :=
      if (item.dGet "type").truthy then item.dGet "type" else item.dGet "item_type"
    let item_type :=
      if item_type0.eqs "assistant_message" then JVal.str "agent_message"
      else item_type0
    if item_type.truthy then
      if item_type.eqs "agent_message" then .ok []
      else
      match item.dGet "id" with
      | .str action_id =>
          if action_id = "" then .ok []
          else
            let phase : ActionPhase :=
              if etype = "item.started" then .started
              else if etype = "item.updated" then .updated
              else .completed
            if item_type.eqs "error" then
              .ok (_translate_error_item item action_id phase)
            else
              match _ACTION_KIND_MAP item_type with
              | none => .ok []
              | some kind =>
                  match kind with
                  | .command =>
                      .ok (_translate_command_item paths item action_id phase)
                  | .tool => _translate_tool_item item item_type action_id phase
                  | .web_search =>
                      .ok (_translate_web_search_item item action_id phase)
                  | .file_change =>
                      _translate_file_change_item item action_id phase
                  | .note =>
                      .ok (_translate_note_item item item_type action_id phase)
                  | _ => .ok []
      | _ => .ok []
    else .ok []
  else .error .attributeError

/-- `translate_codex_event`. -/
def translate_codex_event (paths : PathsFns) (event : JVal) (title : String) :
    Except PyErr (List TakopiEvent) :=
  if event.isDict then
    let etype := event.dGet "type"
    if etype.eqs "thread.started" then
      let thread_id := event.dGet "thread_id"
      if thread_id.truthy then
        .ok [_started_event ⟨ENGINE, pyStr thread_id⟩ title]
      else .ok []
    else if etype.eqs "item.started" || etype.eqs "item.updated" ||
        etype.eqs "item.completed" then
      let itemv := event.dGet "item"
      let item := if itemv.truthy then itemv else .obj []
      _translate_item_event paths (etype.asStr.getD "") item
    else .ok []
  else .error .attributeError

/-- Mutable state of `CodexRunner._run` between two decoded lines. -/
structure CodexRunState where
  did_emit_completed : Bool
  note_seq : Nat
  turn_index : Nat
  found_session : Option ResumeToken
  final_answer : Option String
  session_lock : Option ResumeToken
  session_lock_acquired : Bool
  locks_held : List ResumeToken
deriving Repr

/-- Initial state of a codex run. -/
def initRunState : CodexRunState := ⟨false, 0, 0, none, none, none, false, []⟩

/-- The inner `for out_evt in translate_codex_event(...)` loop of
`CodexRunner._run`: the session checks run only while no session has
been found yet; later `StartedEvent`s are skipped. -/
def codex_consume (expected : Option ResumeToken) :
    List TakopiEvent → CodexRunState →
    List TakopiEvent × Except RunError CodexRunState
  | [], s => ([], .ok s)
  | e :: rest, s =>
      match e with
      | .started sd =>
          match s.found_session with
          | some _ =>
              codex_consume expected rest s
          | none =>
              if sd.resume.engine = ENGINE then
                match expected with
                | some t =>
                    if sd.resume = t then
                      let s' := { s with found_session := some sd.resume }
                      let r := codex_consume expected rest s'
                      (e :: r.1, r.2)
                    else ([], .error .sessionMismatch)
                | none =>
                    if sd.resume ∈ s.locks_held then ([], .error .lockReacquire)
                    else
                      let s' := { s with
                        locks_held := sd.resume :: s.locks_held,
                        session_lock := some sd.resume,
                        session_lock_acquired := true,
                        found_session := some sd.resume }
                      let r := codex_consume expected rest s'
                      (e :: r.1, r.2)
              else ([], .error .wrongEngine)
      | _ =>
          let r := codex_consume expected rest s
          (e :: r.1, r.2)

/-- The agent-message sniffing block of `CodexRunner._run` (the
`event_type == "item.completed"` branch that records the final
answer). -/
def _sniff_agent_message (s : CodexRunState) (evt : JVal) :
    Except PyErr CodexRunState :=
  if (evt.dGet "type").eqs "item.completed" then
    let itemv := evt.dGet "item"
    let item := if itemv.truthy then itemv else .obj []
    if item.isDict then
      let t0 :=
        if (item.dGet "type").truthy then item.dGet "type"
        else item.dGet "item_type"
      let t :=
        if t0.eqs "assistant_message" then JVal.str "agent_message"
        else t0
      if t.eqs "agent_message" then
        match item.dGet "text" with
        | .str txt => .ok { s with final_answer := some txt }
        | _ => .ok s
      else .ok s
    else .error .attributeError
  else .ok s

/-- Processing of one decoded line by `CodexRunner._run`: the inline
handlers for `error`, `turn.*`, the agent-message sniffing, then the
translator. -/
def codex_step (paths : PathsFns) (title : String)
    (expected : Option ResumeToken) (s : CodexRunState) (jl : JsonLine) :
    List TakopiEvent × Except RunError CodexRunState :=
  if s.did_emit_completed then ([], .ok s)
  else
    match jl.data with
    | none =>
        ([_note_completed ("codex.note." ++ toString (s.note_seq + 1))
            "invalid JSON from codex; ignoring line" false
            (some [("line", .str jl.raw)])],
         .ok { s with note_seq := s.note_seq + 1 })
    | some evt =>
        if evt.isDict then
          let etype := evt.dGet "type"
          if etype.eqs "error" then
            let message :=
              if (evt.dGet "message").truthy then pyStr (evt.dGet "message")
              else "codex error"
            let fatal_flag := evt.dGet "fatal"
            let fatal := fatal_flag.isTrue || fatal_flag.isNull
            if fatal then
              let resume_for_completed := s.found_session.orElse fun _ => expected
              ([_completed_event resume_for_completed false
                  (orEmpty s.final_answer) (some message) none],
               .ok { s with did_emit_completed := true })
            else
              ([_note_completed ("codex.note." ++ toString (s.note_seq + 1))
                  message false
                  (some [("code", evt.dGet "code"), ("fatal", evt.dGet "fatal")])],
               .ok { s with note_seq := s.note_seq + 1 })
          else if etype.eqs "turn.failed" then
            let errv := evt.dGet "error"
            let errd := if errv.truthy then errv else .obj []
            if errd.isDict then
              let message :=
                if (errd.dGet "message").truthy then pyStr (errd.dGet "message")
                else "codex turn failed"
              let resume_for_completed := s.found_session.orElse fun _ => expected
              ([_completed_event resume_for_completed false
                  (orEmpty s.final_answer) (some message) none],
               .ok { s with did_emit_completed := true })
            else ([], .error (.pyErr .attributeError))
          else if etype.eqs "turn.rate_limited" then
            let retry := evt.dGet "retry_after_ms"
            -- `isinstance(retry_ms, int)` also holds for Python booleans.
            let message :=
              match retry with
              | .num n => "rate limited (retry after " ++ toString n ++ "ms)"
              | .bool b =>
                  "rate limited (retry after " ++
                    (if b then "True" else "False") ++ "ms)"
              | _ => "rate limited"
            ([_note_completed ("codex.note." ++ toString (s.note_seq + 1))
                message false none],
             .ok { s with note_seq := s.note_seq + 1 })
          else if etype.eqs "turn.started" then
            ([_action_event .started ("turn_" ++ toString s.turn_index) .turn
                "turn started" none none none none],
             .ok { s with turn_index := s.turn_index + 1 })
          else if etype.eqs "turn.completed" then
            let resume_for_completed := s.found_session.orElse fun _ => expected
            let u := evt.dGet "usage"
            ([_completed_event resume_for_completed true (orEmpty s.final_answer)
                none (if u.isNull then none else some u)],
             .ok { s with did_emit_completed := true })
          else
            match _sniff_agent_message s evt with
            | .error e => ([], .error (.pyErr e))
            | .ok s1 =>
                match translate_codex_event paths evt title with
                | .error e => ([], .error (.pyErr e))
                | .ok evts => codex_consume expected evts s1
        else ([], .error (.pyErr .attributeError))

/-- The line loop of `CodexRunner._run`. -/
def codex_run_lines (paths : PathsFns) (title : String)
    (expected : Option ResumeToken) :
    List JsonLine → CodexRunState →
    List TakopiEvent × Except RunError CodexRunState
  | [], s => ([], .ok s)
  | jl :: rest, s =>
      match codex_step paths title expected s jl with
      | (es, .error e) => (es, .error e)
      | (es, .ok s') =>
          let r := codex_run_lines paths title expected rest s'
          (es ++ r.1, r.2)

/-- `CodexRunner._run` as a pure function of the decoded line stream,
the exit code and the drained stderr tail. -/
def codex_run (paths : PathsFns) (title : String)
    (resume_token : Option ResumeToken) (lines : List JsonLine) (rc : Int)
    (stderr_tail : String) : List TakopiEvent × Option RunError :=
  match codex_run_lines paths title resume_token lines initRunState with
  | (evs, .error e) => (evs, some e)
  | (evs, .ok s) =>
      if s.did_emit_completed then (evs, none)
      else if rc = 0 then
        match s.found_session with
        | none =>
            (evs ++ [_completed_event resume_token false (orEmpty s.final_answer)
              (some "codex exec finished but no session_id/thread_id was captured")
              none], none)
        | some fs =>
            (evs ++ [_completed_event (some fs) true (orEmpty s.final_answer)
              none none], none)
      else
        let message := "codex exec failed (rc=" ++ toString rc ++ ")."
        let note := _note_completed ("codex.note." ++ toString (s.note_seq + 1))
          message false (some [("stderr_tail", .str stderr_tail)])
        let resume_for_completed := s.found_session.orElse fun _ => resume_token
        (evs ++ [note, _completed_event resume_for_completed false
          (orEmpty s.final_answer) (some message) none], none)

end Codex

/-! ## Resume-token textual form (claude backend)

`_RESUME_RE = re.compile(r"(?im)^\s*`?claude\s+(?:--resume|-r)\s+(?P<token>[^`\s]+)`?\s*$")`
is transcribed as a deterministic line matcher.  The pattern's atoms
cannot overlap (the token class excludes whitespace and backticks, the
two alternation branches diverge at their second character), so greedy
matching without backtracking computes the same matches as the regex. -/

namespace Claude

/-- The whitespace class of Python `re`'s `\s` on text patterns: ASCII
whitespace, the C0/C1 separator codepoints and the Unicode space
separators. -/
def isPySpace (c : Char) : Bool :=
  c = ' ' || c = '\t' || c = '\n' || c = '\r' ||
  c.toNat = 11 || c.toNat = 12 ||
  c.toNat = 28 || c.toNat = 29 || c.toNat = 30 || c.toNat = 31 ||
  c.toNat = 133 || c.toNat = 160 || c.toNat = 5760 ||
  (8192 ≤ c.toNat && c.toNat ≤ 8202) ||
  c.toNat = 8232 || c.toNat = 8233 || c.toNat = 8239 || c.toNat = 8287 ||
  c.toNat = 12288

/-- A character the `token` group of `_RESUME_RE` accepts. -/
def isTokenChar (c : Char) : Bool := !isPySpace c && c.toNat != 96

/-- Case-insensitive literal match, returning the rest of the input. -/
def matchLitCI : List Char → List Char → Option (List Char)
  | [], cs => some cs
  | _ :: _, [] => none
  | l :: ls, c :: cs => if l.toLower = c.toLower then matchLitCI ls cs else none

/-- An optional backtick. -/
def optBacktick : List Char → List Char
  | [] => []
  | c :: cs => if c.toNat = 96 then cs else c :: cs

/-- `\s+` — at least one whitespace character, consumed greedily. -/
def spaces1 : List Char → Option (List Char)
  | [] => none
  | c :: cs => if isPySpace c then some (cs.dropWhile isPySpace) else none

/-- The tail of the pattern: the token group, an optional backtick and
trailing whitespace up to the end of the line. -/
def _resume_token_tail (cs : List Char) : Option String :=
  let tok := cs.takeWhile isTokenChar
  let rest := optBacktick (cs.dropWhile isTokenChar)
  if tok.isEmpty then none
  else if rest.all isPySpace then some (String.mk tok) else none

/-- The pattern after the literal `claude`. -/
def _resume_after_claude (cs : List Char) : Option String :=
  match spaces1 cs with
  | none => none
  | some cs1 =>
      match matchLitCI "--resume".toList cs1 with
      | some cs2 =>
          match spaces1 cs2 with
          | some cs3 => _resume_token_tail cs3
          | none => none
      | none =>
          match matchLitCI "-r".toList cs1 with
          | some cs2 =>
              match spaces1 cs2 with
              | some cs3 => _resume_token_tail cs3
              | none => none
          | none => none

/-- `_RESUME_RE` applied to one line of text. -/
def _resume_line_match (line : List Char) : Option String :=
  let cs := optBacktick (line.dropWhile isPySpace)
  match matchLitCI "claude".toList cs with
  | some cs1 => _resume_after_claude cs1
  | none => none

/-- The lines of a character sequence, split at every newline. -/
def splitLines : List Char → List (List Char)
  | [] => [[]]
  | c :: cs =>
      if c = '\n' then [] :: splitLines cs
      else
        match splitLines cs with
        | [] => [[c]]
        | l :: ls => (c :: l) :: ls

/-- Modelled from the spec: `ResumeTokenMixin.extract_resume`
(`takopi/runner.py`, not in the snapshot) searches free text with the
backend's `resume_re` pattern and returns the captured token, or `None`
when nothing matches.  Since `_RESUME_RE` is anchored to line starts and
ends in multiline mode, searching the text is matching its lines in
order. -/
def extract_resume (text : String) : Option ResumeToken :=
  ((splitLines text.toList).findSome? fun l => _resume_line_match l).map
    fun v => ResumeToken.mk ENGINE v

/-- `ClaudeRunner.format_resume` — raises `RuntimeError` for a token of
a foreign engine, otherwise renders the backtick-quoted resume line. -/
def format_resume (token : ResumeToken) : Except String String :=
  if token.engine ≠ ENGINE then
    .error ("resume token is for engine '" ++ token.engine ++ "'")
  else .ok ("`claude --resume " ++ token.value ++ "`")

end Claude

/-! ## Session lock registry and run serialization

Modelled from the spec: `SessionLockMixin` and `run_with_resume_lock`
(`takopi/runner.py`) are not in the snapshot.  Per the spec (section
4.2), the registry returns one mutex per resume token, a run supplied
with a resume token holds that mutex from before the subprocess is
spawned until its terminal transition, and release happens exactly once
per acquisition.  Two runs sharing one token are modelled as a two-task
transition system over the token's single mutex. -/

/-- Phase of one of the two runs contending for the same token. -/
inductive RunPhase where
  | waiting
  | running
  | finished
deriving Repr, DecidableEq

/-- Global state: who owns the token's mutex, and each run's phase.
`running` means the mutex is held and the run's subprocess is in
flight. -/
structure LockSys where
  owner : Option (Fin 2)
  phase : Fin 2 → RunPhase

/-- Atomic transitions: a waiting run acquires the free mutex and spawns
its subprocess; a running run finishes, terminating its subprocess and
releasing the mutex. -/
inductive LockStep : LockSys → LockSys → Prop
  | acquire (s : LockSys) (i : Fin 2) :
      s.owner = none → s.phase i = RunPhase.waiting →
      LockStep s ⟨some i, Function.update s.phase i RunPhase.running⟩
  | release (s : LockSys) (i : Fin 2) :
      s.owner = some i → s.phase i = RunPhase.running →
      LockStep s ⟨none, Function.update s.phase i RunPhase.finished⟩

/-- Both runs start waiting, the mutex free. -/
def initLockSys : LockSys := ⟨none, fun _ => RunPhase.waiting⟩

/-- States reachable by any interleaving of the two runs. -/
inductive ReachableLS : LockSys → Prop
  | init : ReachableLS initLockSys
  | step {s t : LockSys} : ReachableLS s → LockStep s t → ReachableLS t

/-- Number of simultaneously in-flight subprocess executions for the
shared token. -/
def inFlight (s : LockSys) : Nat :=
  (if s.phase 0 = RunPhase.running then 1 else 0) +
    (if s.phase 1 = RunPhase.running then 1 else 0)

/-! ## Shape predicates and concrete fixtures used by the theorems -/

/-- No `CompletedEvent` occurs in the list. -/
def noCompleted (es : List TakopiEvent) : Prop :=
  ∀ e ∈ es, e.isCompleted = false

/-- The list is a run of non-terminal events closed by exactly one
`CompletedEvent`. -/
def endsCompleted (es : List TakopiEvent) : Prop :=
  ∃ front c, es = front ++ [TakopiEvent.completed c] ∧ noCompleted front

/-- A decoded claude `system`/`init` line carrying a session id. -/
def mkInitLine (sid : String) : JsonLine :=
  ⟨some (.obj [("type", .str "system"), ("subtype", .str "init"),
    ("session_id", .str sid)]), ""⟩

/-- A decoded codex `thread.started` line carrying a thread id. -/
def mkThreadLine (tid : String) : JsonLine :=
  ⟨some (.obj [("type", .str "thread.started"), ("thread_id", .str tid)]), ""⟩

/-- A decoded claude `result` line reporting success with a literal
answer. -/
def mkResultLine (answer : String) : JsonLine :=
  ⟨some (.obj [("type", .str "result"), ("result", .str answer)]), ""⟩

/-- The backtick character, named because the resume-line syntax quotes
in backticks. -/
def backtickChar : Char := Char.ofNat 96

/-! ## Helper lemmas -/

theorem list_takeWhile_append_all {α} {p : α → Bool} :
    ∀ (xs ys : List α), (∀ x ∈ xs, p x = true) →
      (xs ++ ys).takeWhile p = xs ++ ys.takeWhile p := by
  intro xs
  induction xs with
  | nil => intro ys _; simp
  | cons a xs ih =>
      intro ys h
      have ha := h a (by simp)
      simp only [List.cons_append, List.takeWhile_cons, ha, if_true]
      simp [ih ys fun x hx => h x (by simp [hx])]

theorem list_dropWhile_append_all {α} {p : α → Bool} :
    ∀ (xs ys : List α), (∀ x ∈ xs, p x = true) →
      (xs ++ ys).dropWhile p = ys.dropWhile p := by
  intro xs
  induction xs with
  | nil => intro ys _; simp
  | cons a xs ih =>
      intro ys h
      have ha := h a (by simp)
      simp only [List.cons_append, List.dropWhile_cons, ha, if_true]
      exact ih ys fun x hx => h x (by simp [hx])

theorem isTokenChar_spec {c : Char} (h : Claude.isTokenChar c = true) :
    Claude.isPySpace c = false ∧ c ≠ backtickChar ∧ c ≠ '\n' := by
  unfold Claude.isTokenChar at h
  rw [Bool.and_eq_true] at h
  obtain ⟨h1, h2⟩ := h
  rw [Bool.not_eq_true'] at h1
  refine ⟨h1, ?_, ?_⟩
  · intro hc
    subst hc
    simp [backtickChar] at h2
  · intro hc
    subst hc
    simp [Claude.isPySpace] at h1

theorem splitLines_single :
    ∀ (cs : List Char), (∀ c ∈ cs, c ≠ '\n') → Claude.splitLines cs = [cs] := by
  intro cs
  induction cs with
  | nil => intro _; rfl
  | cons c cs ih =>
      intro h
      have hc : c ≠ '\n' := h c (by simp)
      rw [Claude.splitLines, if_neg hc, ih fun x hx => h x (by simp [hx])]

theorem resume_token_tail_exact (v : String) (hne : v ≠ "")
    (hch : ∀ c ∈ v.toList, Claude.isTokenChar c = true) :
    Claude._resume_token_tail (v.toList ++ [backtickChar]) = some v := by
  unfold Claude._resume_token_tail
  have htake : (v.toList ++ [backtickChar]).takeWhile Claude.isTokenChar
      = v.toList ++ [backtickChar].takeWhile Claude.isTokenChar :=
    list_takeWhile_append_all _ _ hch
  have hdrop : (v.toList ++ [backtickChar]).dropWhile Claude.isTokenChar
      = [backtickChar].dropWhile Claude.isTokenChar :=
    list_dropWhile_append_all _ _ hch
  have hbt : Claude.isTokenChar backtickChar = false := by decide
  rw [htake, hdrop]
  simp only [List.takeWhile_cons, hbt, List.dropWhile_cons]
  have hvne : v.toList ≠ [] := by
    intro hnil
    apply hne
    have : v = String.mk v.toList := rfl
    rw [this, hnil]
  simp only [Bool.false_eq_true, if_false, List.takeWhile_nil, List.append_nil,
    List.dropWhile_nil]
  have hemp : ¬ (v.toList.isEmpty = true) := by
    simp only [List.isEmpty_iff]
    exact hvne
  have hob : (Claude.optBacktick [backtickChar]).all Claude.isPySpace = true := by
    decide
  rw [if_neg hemp, if_pos hob]
  rfl

/-- `C10` and `C4` rely on this case split of `format_resume`. -/
theorem format_resume_cases (t : ResumeToken) :
    (t.engine ≠ Claude.ENGINE → Claude.format_resume t =
        .error ("resume token is for engine '" ++ t.engine ++ "'")) ∧
    (t.engine = Claude.ENGINE → Claude.format_resume t =
        .ok ("`claude --resume " ++ t.value ++ "`")) := by
  unfold Claude.format_resume
  constructor <;> intro h <;> simp [h]

/-! ## Claim theorems -/

/-- C10: for every resume token whose engine is not `claude`,
`ClaudeRunner.format_resume` raises a `RuntimeError` instead of
returning a string, and for every claude token it returns the string
`claude --resume VALUE` wrapped in backticks. -/
theorem c10_format_resume_engine_check (t : ResumeToken) :
    (t.engine ≠ Claude.ENGINE → Claude.format_resume t =
        .error ("resume token is for engine '" ++ t.engine ++ "'")) ∧
    (t.engine = Claude.ENGINE → Claude.format_resume t =
        .ok ("`claude --resume " ++ t.value ++ "`")) := by
  unfold Claude.format_resume
  constructor <;> intro h <;> simp [h]

/-- Witness for C10 at the concrete tokens `(codex, x)` and
`(claude, abc)`. -/
theorem c10_format_resume_engine_check_witness :
    Claude.format_resume ⟨"codex", "x"⟩ =
      .error "resume token is for engine 'codex'" ∧
    Claude.format_resume ⟨"claude", "abc"⟩ = .ok "`claude --resume abc`" :=
  ⟨(c10_format_resume_engine_check ⟨"codex", "x"⟩).1 (by decide),
   (c10_format_resume_engine_check ⟨"claude", "abc"⟩).2 rfl⟩

/-- C3 (failing input): with a caller-supplied resume token `(claude, s)`
and a stream holding two `system`/`init` events for the same session
`s`, `ClaudeRunner._run` yields a second `StartedEvent` for the second
init event — the claude runner has no `found_session` guard, unlike the
codex runner — so the first session-revealing event does not produce
exactly one `StartedEvent`. -/
theorem c3_second_init_retriggers_started :
    ((Claude.claude_run idPaths "claude" (some ⟨"claude", "s"⟩)
        [mkInitLine "s", mkInitLine "s"] 0 "").1.countP TakopiEvent.isStarted = 2) ∧
    (Claude.claude_run idPaths "claude" (some ⟨"claude", "s"⟩)
        [mkInitLine "s", mkInitLine "s"] 0 "").2 = none := by
  exact ⟨rfl, rfl⟩

/-- C4 (counterexample): the claude resume syntax has no quoting
convention, so a token value with embedded whitespace does not survive
the round trip: formatting `(claude, "a b")` yields a line the claude
resume pattern does not match at all. -/
theorem c4_resume_roundtrip_counterexample :
    Claude.format_resume ⟨"claude", "a b"⟩ = .ok "`claude --resume a b`" ∧
    Claude.extract_resume "`claude --resume a b`" = none := ⟨rfl, rfl⟩

/-- C4 (amended): the round trip
`extract_resume (format_resume T) = T` holds for claude tokens whose
value is nonempty and free of whitespace and backticks; values with
embedded whitespace are rejected by the pattern (previous theorem). -/
theorem c4_resume_roundtrip_amended (t : ResumeToken)
    (he : t.engine = Claude.ENGINE) (hne : t.value ≠ "")
    (hch : ∀ c ∈ t.value.toList, Claude.isTokenChar c = true) :
    ∃ s, Claude.format_resume t = .ok s ∧ Claude.extract_resume s = some t := by
  obtain ⟨e, v⟩ := t
  simp only at he hch hne
  subst he
  refine ⟨"`claude --resume " ++ v ++ "`", (format_resume_cases _).2 rfl, ?_⟩
  unfold Claude.extract_resume
  have hlist : ("`claude --resume " ++ v ++ "`").toList
      = "`claude --resume ".toList ++ (v.toList ++ [backtickChar]) := by
    show ("`claude --resume " ++ v ++ "`").data
        = "`claude --resume ".data ++ (v.data ++ [backtickChar])
    rw [String.data_append, String.data_append]
    have : "`".data = [backtickChar] := by decide
    rw [this, List.append_assoc]
  rw [hlist]
  have hnl : ∀ c ∈ "`claude --resume ".toList ++ (v.toList ++ [backtickChar]),
      c ≠ '\n' := by
    have hall : "`claude --resume ".toList.all (fun c => c != '\n') = true := by
      decide
    intro c hc
    rcases List.mem_append.mp hc with hpre | hrest
    · simpa using List.all_eq_true.mp hall c hpre
    · rcases List.mem_append.mp hrest with hv | hb
      · exact (isTokenChar_spec (hch c hv)).2.2
      · simp only [List.mem_singleton] at hb
        subst hb
        decide
  rw [splitLines_single _ hnl]
  rw [List.findSome?_cons]
  have hmatch : Claude._resume_line_match
      ("`claude --resume ".toList ++ (v.toList ++ [backtickChar]))
      = Claude._resume_token_tail
          ((v.toList ++ [backtickChar]).dropWhile Claude.isPySpace) := rfl
  have hdrop : (v.toList ++ [backtickChar]).dropWhile Claude.isPySpace
      = v.toList ++ [backtickChar] := by
    cases hv : v.toList with
    | nil =>
        exfalso
        apply hne
        have : v = String.mk v.toList := rfl
        rw [this, hv]
    | cons c cs =>
        have hc : Claude.isPySpace c = false :=
          (isTokenChar_spec (hch c (by rw [hv]; simp))).1
        simp [List.dropWhile_cons, hc]
  rw [hmatch, hdrop, resume_token_tail_exact v hne hch]
  simp

/-- Witness for C4 (amended) at the concrete token `(claude, abc)`. -/
theorem c4_resume_roundtrip_amended_witness :
    ∃ s, Claude.format_resume ⟨"claude", "abc"⟩ = .ok s ∧
      Claude.extract_resume s = some ⟨"claude", "abc"⟩ :=
  c4_resume_roundtrip_amended ⟨"claude", "abc"⟩ rfl (by decide) (by decide)

/-- In every reachable state, a running task owns the mutex. -/
theorem lockSys_running_owner {s : LockSys} (h : ReachableLS s) :
    ∀ i : Fin 2, s.phase i = RunPhase.running → s.owner = some i := by
  induction h with
  | init =>
      intro i hi
      simp [initLockSys] at hi
  | step _ hstep ih =>
      cases hstep with
      | acquire i hown hw =>
          intro j hj
          dsimp only at hj
          by_cases hij : j = i
          · subst hij; rfl
          · exfalso
            rw [Function.update_noteq hij] at hj
            have := ih j hj
            rw [hown] at this
            exact Option.noConfusion this
      | release i hown hr2 =>
          intro j hj
          dsimp only at hj
          by_cases hij : j = i
          · subst hij
            rw [Function.update_same] at hj
            exact absurd hj (by simp)
          · exfalso
            rw [Function.update_noteq hij] at hj
            have := ih j hj
            rw [hown] at this
            exact hij (Option.some.inj this).symm

/-- C9: for two concurrent runs sharing one resume token, at most one
subprocess execution for that token is in flight in every reachable
interleaving: the session mutex serializes them regardless of start
order. -/
theorem c9_same_token_serialized (s : LockSys) (h : ReachableLS s) :
    inFlight s ≤ 1 := by
  by_cases h0 : s.phase 0 = RunPhase.running
  · by_cases h1 : s.phase 1 = RunPhase.running
    · exfalso
      have e0 := lockSys_running_owner h 0 h0
      have e1 := lockSys_running_owner h 1 h1
      rw [e0] at e1
      exact absurd (Option.some.inj e1) (by decide)
    · simp [inFlight, h0, h1]
  · by_cases h1 : s.phase 1 = RunPhase.running <;> simp [inFlight, h0, h1]

/-- Witness for C9 at the initial (reachable) state. -/
theorem c9_same_token_serialized_witness : inFlight initLockSys ≤ 1 :=
  c9_same_token_serialized initLockSys ReachableLS.init

theorem denial_events_nil (n : Nat) : Claude._denial_events n [] = [] := rfl

theorem dGet_cons (k : String) (v : JVal) (kvs : List (String × JVal))
    (key : String) :
    (JVal.obj ((k, v) :: kvs)).dGet key =
      if k = key then v else (JVal.obj kvs).dGet key := by
  simp only [JVal.dGet, JVal.lookupKey]
  split <;> rfl

theorem dGet_nil (key : String) : (JVal.obj []).dGet key = JVal.null := rfl

/-- `x or ""` on an optional string is `getD ""`. -/
theorem orEmpty_eq_getD (o : Option String) : orEmpty o = o.getD "" := by
  cases o with
  | none => rfl
  | some s =>
      by_cases h : s = "" <;> simp [orEmpty, optStrTruthy, h]

/-- C7: when the backend terminal record reports success but supplies no
free-text answer, the `CompletedEvent` answer is the last free-text
fragment observed during the run, or `""` if none was observed — for
claude, a `result` event whose `result` field is not a nonempty string
falls back to `last_assistant_text`; for codex, `turn.completed` (which
never carries an answer) falls back to the last sniffed agent message. -/
theorem c7_success_answer_fallback :
    (∀ (paths : PathsFns) (title : String) (st : Claude.ClaudeStreamState)
        (ekvs : List (String × JVal)),
      (JVal.obj ekvs).dGet "type" = .str "result" →
      ((JVal.obj ekvs).dGet "is_error").truthy = false →
      ((JVal.obj ekvs).dGet "result").asStr.getD "" = "" →
      (JVal.obj ekvs).dGet "permission_denials" = .null →
      ∃ resume usage,
        Claude.translate_claude_event paths (.obj ekvs) title st =
          .ok ([.completed ⟨Claude.ENGINE, true,
            st.last_assistant_text.getD "", resume, none, usage⟩], st)) ∧
    (∀ (paths : PathsFns) (title : String) (expected : Option ResumeToken)
        (s : Codex.CodexRunState) (ekvs : List (String × JVal)) (raw : String),
      s.did_emit_completed = false →
      (JVal.obj ekvs).dGet "type" = .str "turn.completed" →
      ∃ usage,
        Codex.codex_step paths title expected s ⟨some (.obj ekvs), raw⟩ =
          ([.completed ⟨Codex.ENGINE, true, s.final_answer.getD "",
              s.found_session.orElse fun _ => expected, none, usage⟩],
           .ok { s with did_emit_completed := true })) := by
  constructor
  · intro paths title st ekvs hty hok hres hpd
    refine ⟨(if ((JVal.obj ekvs).dGet "session_id").truthy then
        some (ResumeToken.mk Claude.ENGINE
          (pyStr ((JVal.obj ekvs).dGet "session_id"))) else none),
      (if (Claude._usage_payload (JVal.obj ekvs)).isEmpty then none
        else some (JVal.obj (Claude._usage_payload (JVal.obj ekvs)))), ?_⟩
    unfold Claude.translate_claude_event
    rw [hty, hpd, hok]
    simp only [JVal.isDict, JVal.eqs, JVal.truthy, pyIter,
      Claude._denial_events, List.nil_append, Bool.not_false]
    cases hrv : (JVal.obj ekvs).dGet "result" with
    | str sv =>
        have hsv : sv = "" := by
          rw [hrv] at hres
          simpa [JVal.asStr] using hres
        subst hsv
        cases hl : st.last_assistant_text with
        | none => simp [optStrTruthy, denial_events_nil]
        | some t => by_cases ht : t = "" <;> simp [optStrTruthy, ht, denial_events_nil]
    | null =>
        cases hl : st.last_assistant_text with
        | none => simp [optStrTruthy, denial_events_nil]
        | some t => by_cases ht : t = "" <;> simp [optStrTruthy, ht, denial_events_nil]
    | bool b =>
        cases hl : st.last_assistant_text with
        | none => simp [optStrTruthy, denial_events_nil]
        | some t => by_cases ht : t = "" <;> simp [optStrTruthy, ht, denial_events_nil]
    | num n =>
        cases hl : st.last_assistant_text with
        | none => simp [optStrTruthy, denial_events_nil]
        | some t => by_cases ht : t = "" <;> simp [optStrTruthy, ht, denial_events_nil]
    | arr xs =>
        cases hl : st.last_assistant_text with
        | none => simp [optStrTruthy, denial_events_nil]
        | some t => by_cases ht : t = "" <;> simp [optStrTruthy, ht, denial_events_nil]
    | obj okvs =>
        cases hl : st.last_assistant_text with
        | none => simp [optStrTruthy, denial_events_nil]
        | some t => by_cases ht : t = "" <;> simp [optStrTruthy, ht, denial_events_nil]
  · intro paths title expected s ekvs raw hdid hty
    refine ⟨(if ((JVal.obj ekvs).dGet "usage").isNull then none
      else some ((JVal.obj ekvs).dGet "usage")), ?_⟩
    unfold Codex.codex_step
    rw [hdid]
    simp only [Bool.false_eq_true, if_false]
    rw [hty]
    simp [JVal.eqs, JVal.isDict, Codex._completed_event, orEmpty_eq_getD]

/-- Witness for C7: a claude `result` event with no `result` text falls
back to the recorded fragment `hello`; a codex `turn.completed` in the
initial state answers `""`. -/
theorem c7_success_answer_fallback_witness :
    (∃ resume usage,
      Claude.translate_claude_event idPaths (.obj [("type", .str "result")])
          "claude" ⟨[], some "hello"⟩ =
        .ok ([.completed ⟨Claude.ENGINE, true, "hello", resume, none, usage⟩],
          ⟨[], some "hello"⟩)) ∧
    (∃ usage,
      Codex.codex_step idPaths "Codex" none Codex.initRunState
          ⟨some (.obj [("type", .str "turn.completed")]), ""⟩ =
        ([.completed ⟨Codex.ENGINE, true, "", none, none, usage⟩],
         .ok { Codex.initRunState with did_emit_completed := true })) :=
  ⟨c7_success_answer_fallback.1 idPaths "claude" ⟨[], some "hello"⟩
      [("type", .str "result")] rfl rfl rfl rfl,
   c7_success_answer_fallback.2 idPaths "Codex" none Codex.initRunState
      [("type", .str "turn.completed")] "" rfl rfl⟩

/-- C8: a `tool_result` record whose correlation id has no pending
action still produces a valid synthetic completed `ActionEvent` for that
id (kind `tool`, title `tool result`), instead of being dropped. -/
theorem c8_unmatched_tool_result (paths : PathsFns) (title : String)
    (st : Claude.ClaudeStreamState) (ckvs : List (String × JVal)) (tid : String)
    (hty : (JVal.obj ckvs).dGet "type" = .str "tool_result")
    (hid : (JVal.obj ckvs).dGet "tool_use_id" = .str tid)
    (hne : tid ≠ "")
    (hpend : Claude.pendingLookup st.pending_actions tid = none) :
    Claude.translate_claude_event paths
        (.obj [("type", .str "user"),
               ("message", .obj [("content", .arr [.obj ckvs])])]) title st =
      .ok ([.action ⟨Claude.ENGINE,
            ⟨tid, .tool, "tool result",
              [("tool_use_id", (JVal.obj ckvs).dGet "tool_use_id"),
               ("result_preview", .str (Claude._normalize_tool_result
                  ((JVal.obj ckvs).dGet "content"))),
               ("result_len", .num (Claude._normalize_tool_result
                  ((JVal.obj ckvs).dGet "content")).length),
               ("is_error", .bool ((JVal.obj ckvs).dGet "is_error").isTrue)]⟩,
            .completed, some (!((JVal.obj ckvs).dGet "is_error").isTrue),
            none, none⟩],
        { st with pending_actions :=
            Claude.pendingRemove st.pending_actions tid }) := by
  unfold Claude.translate_claude_event
  simp [dGet_cons, dGet_nil, JVal.eqs, JVal.isDict, JVal.asStr]
  unfold Claude._user_blocks
  dsimp only
  rw [hty]
  simp only [JVal.eqs, String.reduceEq, ite_true, if_true]
  rw [hid]
  simp [hne, hpend, hid, optStrTruthy, Claude._user_blocks,
    Claude._tool_result_event, Claude._action_event, dictUpdate, dictInsert]

/-- Witness for C8: a lone unmatched `tool_result` for id `t1` in the
empty state yields the synthetic completed action. -/
theorem c8_unmatched_tool_result_witness :
    Claude.translate_claude_event idPaths
        (.obj [("type", .str "user"),
               ("message", .obj [("content", .arr [.obj
                 [("type", .str "tool_result"),
                  ("tool_use_id", .str "t1")]])])])
        "claude" Claude.initStreamState =
      .ok ([.action ⟨Claude.ENGINE,
            ⟨"t1", .tool, "tool result",
              [("tool_use_id", .str "t1"), ("result_preview", .str ""),
               ("result_len", .num 0), ("is_error", .bool false)]⟩,
            .completed, some true, none, none⟩], ⟨[], none⟩) :=
  c8_unmatched_tool_result idPaths "claude" Claude.initStreamState
    [("type", .str "tool_result"), ("tool_use_id", .str "t1")] "t1"
    rfl rfl (by decide) rfl

/-! ## Structure of the translator output (claude) -/

theorem assistant_blocks_mem (paths : PathsFns) (mid par : Option String) :
    ∀ (blocks : List JVal) (out : List TakopiEvent)
      (st : Claude.ClaudeStreamState) (e : TakopiEvent),
      e ∈ (Claude._assistant_blocks paths mid par blocks out st).1 →
      e ∈ out ∨ ∃ ad, e = TakopiEvent.action ad := by
  intro blocks
  induction blocks with
  | nil =>
      intro out st e h
      exact .inl h
  | cons b rest ih =>
      intro out st e h
      cases b <;> simp only [Claude._assistant_blocks] at h <;>
        try exact ih _ _ _ h
      repeat' split at h
      all_goals
        first
        | exact ih _ _ _ h
        | (rcases ih _ _ _ h with h' | h'
           · rcases List.mem_append.mp h' with h'' | h''
             · exact .inl h''
             · simp only [List.mem_singleton] at h''
               subst h''
               exact .inr ⟨_, rfl⟩
           · exact .inr h')

theorem user_blocks_mem (mid : Option String) :
    ∀ (blocks : List JVal) (out : List TakopiEvent)
      (st : Claude.ClaudeStreamState) (e : TakopiEvent),
      e ∈ (Claude._user_blocks mid blocks out st).1 →
      e ∈ out ∨ ∃ ad, e = TakopiEvent.action ad := by
  intro blocks
  induction blocks with
  | nil =>
      intro out st e h
      exact .inl h
  | cons b rest ih =>
      intro out st e h
      cases b <;> simp only [Claude._user_blocks] at h <;>
        try exact ih _ _ _ h
      repeat' split at h
      all_goals
        first
        | exact ih _ _ _ h
        | (rcases ih _ _ _ h with h' | h'
           · rcases List.mem_append.mp h' with h'' | h''
             · exact .inl h''
             · simp only [List.mem_singleton] at h''
               subst h''
               exact .inr ⟨_, rfl⟩
           · exact .inr h')

theorem denial_events_mem :
    ∀ (items : List JVal) (idx : Nat) (e : TakopiEvent),
      e ∈ Claude._denial_events idx items →
      ∃ ad, e = TakopiEvent.action ad ∧ ad.action.kind = .warning ∧
        ad.level = some .warning ∧ ad.phase = .completed ∧
        ad.ok = some false ∧ ad.engine = Claude.ENGINE := by
  intro items
  induction items with
  | nil =>
      intro idx e h
      simp [Claude._denial_events] at h
  | cons d rest ih =>
      intro idx e h
      cases d <;> simp only [Claude._denial_events] at h <;>
        try exact ih _ _ h
      rcases List.mem_cons.mp h with h' | h'
      · subst h'
        exact ⟨_, rfl, rfl, rfl, rfl, rfl, rfl⟩
      · exact ih _ _ h'

/-- Case shape of one claude translator call: nothing, one
`StartedEvent` tagged with the claude engine, action events only, or
warning actions closed by exactly one `CompletedEvent` (only for
`result` records, with `ok` mirroring `is_error`). -/
theorem translate_claude_cases (paths : PathsFns) (event : JVal)
    (title : String) (st st' : Claude.ClaudeStreamState)
    (es : List TakopiEvent)
    (h : Claude.translate_claude_event paths event title st = .ok (es, st')) :
    es = [] ∨
    (∃ sd, es = [TakopiEvent.started sd] ∧
      sd.resume.engine = Claude.ENGINE ∧ sd.engine = Claude.ENGINE) ∨
    (∀ e ∈ es, ∃ ad, e = TakopiEvent.action ad) ∨
    (∃ front c, es = front ++ [TakopiEvent.completed c] ∧
      (∀ e ∈ front, ∃ ad, e = TakopiEvent.action ad ∧
        ad.action.kind = .warning ∧ ad.level = some .warning ∧
        ad.phase = .completed ∧ ad.ok = some false) ∧
      event.dGet "type" = JVal.str "result" ∧
      c.ok = !(event.dGet "is_error").truthy ∧ c.engine = Claude.ENGINE) := by
  unfold Claude.translate_claude_event at h
  split at h
  case isFalse => exact absurd h (by simp)
  case isTrue =>
  dsimp only at h
  split at h
  case isTrue =>
    -- system/init
    split at h
    case isTrue =>
      simp only [Except.ok.injEq, Prod.mk.injEq] at h
      refine .inr (.inl ⟨_, h.1.symm, rfl, rfl⟩)
    case isFalse =>
      simp only [Except.ok.injEq, Prod.mk.injEq] at h
      exact .inl h.1.symm
  case isFalse =>
  split at h
  case isTrue =>
    -- assistant
    split at h
    case isTrue =>
      split at h
      case h_1 =>
        rename_i x blocks heq
        injection h with h2
        refine .inr (.inr (.inl ?_))
        intro e he
        have he' : e ∈ (Claude._assistant_blocks paths
            ((event.dGet "message").dGet "id").asStr
            (event.dGet "parent_tool_use_id").asStr blocks [] st).1 := by
          rw [h2]
          exact he
        rcases assistant_blocks_mem paths _ _ _ _ _ _ he' with h' | h'
        · simp at h'
        · exact h'
      case h_2 =>
        simp only [Except.ok.injEq, Prod.mk.injEq] at h
        exact .inl h.1.symm
    case isFalse =>
      simp only [Except.ok.injEq, Prod.mk.injEq] at h
      exact .inl h.1.symm
  case isFalse =>
  split at h
  case isTrue =>
    -- user
    split at h
    case isTrue =>
      split at h
      case h_1 =>
        rename_i x blocks heq
        injection h with h2
        refine .inr (.inr (.inl ?_))
        intro e he
        have he' : e ∈ (Claude._user_blocks
            ((event.dGet "message").dGet "id").asStr blocks [] st).1 := by
          rw [h2]
          exact he
        rcases user_blocks_mem _ _ _ _ _ he' with h' | h'
        · simp at h'
        · exact h'
      case h_2 =>
        simp only [Except.ok.injEq, Prod.mk.injEq] at h
        exact .inl h.1.symm
    case isFalse =>
      simp only [Except.ok.injEq, Prod.mk.injEq] at h
      exact .inl h.1.symm
  case isFalse =>
  split at h
  case isTrue =>
    -- result
    rename_i hres
    split at h
    case h_1 => exact absurd h (by simp)
    case h_2 =>
      simp only [Except.ok.injEq, Prod.mk.injEq] at h
      refine .inr (.inr (.inr ⟨_, _, h.1.symm, ?_, ?_, rfl, rfl⟩))
      · intro e he
        rcases denial_events_mem _ _ _ he with ⟨ad, h1, h2, h3, h4, h5, _⟩
        exact ⟨ad, h1, h2, h3, h4, h5⟩
      · simp only [JVal.eqs] at hres
        split at hres
        · rename_i sv heq
          rw [heq]
          simp only [JVal.str.injEq]
          exact of_decide_eq_true hres
        · exact absurd hres (by simp)
  case isFalse =>
    simp only [Except.ok.injEq, Prod.mk.injEq] at h
    exact .inl h.1.symm

/-! ## C1 machinery: the runner loop keeps the terminal event unique -/

theorem noCompleted_nil : noCompleted [] := by
  intro e he
  simp at he

theorem noCompleted_append {a b : List TakopiEvent}
    (ha : noCompleted a) (hb : noCompleted b) : noCompleted (a ++ b) := by
  intro e he
  rcases List.mem_append.mp he with h | h
  · exact ha e h
  · exact hb e h

theorem actions_noCompleted {es : List TakopiEvent}
    (h : ∀ e ∈ es, ∃ ad, e = TakopiEvent.action ad) : noCompleted es := by
  intro e he
  obtain ⟨ad, rfl⟩ := h e he
  rfl

theorem endsCompleted_append_left {a b : List TakopiEvent}
    (ha : noCompleted a) (hb : endsCompleted b) : endsCompleted (a ++ b) := by
  obtain ⟨front, c, rfl, hfront⟩ := hb
  exact ⟨a ++ front, c, by rw [List.append_assoc], noCompleted_append ha hfront⟩

theorem endsCompleted_count {es : List TakopiEvent} (h : endsCompleted es) :
    es.countP TakopiEvent.isCompleted = 1 ∧
    ∃ c, es.getLast? = some (TakopiEvent.completed c) := by
  obtain ⟨front, c, rfl, hfront⟩ := h
  constructor
  · rw [List.countP_append]
    have h0 : front.countP TakopiEvent.isCompleted = 0 :=
      List.countP_eq_zero.mpr (by
        intro e he
        simp [hfront e he])
    rw [h0]
    rfl
  · exact ⟨c, List.getLast?_concat front⟩

theorem claude_consume_actions (expected : Option ResumeToken) :
    ∀ (evts : List TakopiEvent) (s : Claude.ClaudeRunState),
      (∀ e ∈ evts, ∃ ad, e = TakopiEvent.action ad) →
      Claude.claude_consume expected evts s = (evts, .ok s) := by
  intro evts
  induction evts with
  | nil => intro s _; rfl
  | cons e rest ih =>
      intro s h
      obtain ⟨ad, rfl⟩ := h _ (List.mem_cons_self e rest)
      simp only [Claude.claude_consume]
      rw [ih s fun x hx => h x (List.mem_cons_of_mem _ hx)]

theorem claude_consume_front_completed (expected : Option ResumeToken) :
    ∀ (front : List TakopiEvent) (c : CompletedData) (s : Claude.ClaudeRunState),
      (∀ e ∈ front, ∃ ad, e = TakopiEvent.action ad) →
      Claude.claude_consume expected (front ++ [TakopiEvent.completed c]) s =
        (front ++ [TakopiEvent.completed c],
         .ok { s with did_emit_completed := true }) := by
  intro front
  induction front with
  | nil => intro c s _; rfl
  | cons e rest ih =>
      intro c s h
      obtain ⟨ad, rfl⟩ := h _ (List.mem_cons_self e rest)
      have key : Claude.claude_consume expected
          ((TakopiEvent.action ad :: rest) ++ [TakopiEvent.completed c]) s =
          (TakopiEvent.action ad ::
            (Claude.claude_consume expected
              (rest ++ [TakopiEvent.completed c]) s).1,
           (Claude.claude_consume expected
              (rest ++ [TakopiEvent.completed c]) s).2) := rfl
      rw [key, ih c s fun x hx => h x (List.mem_cons_of_mem _ hx)]
      rfl

theorem claude_consume_started (expected : Option ResumeToken)
    (sd : StartedData) (s : Claude.ClaudeRunState) :
    (∃ s', Claude.claude_consume expected [TakopiEvent.started sd] s =
        ([TakopiEvent.started sd], .ok s') ∧
      s'.did_emit_completed = s.did_emit_completed ∧ s'.st = s.st ∧
      s'.note_seq = s.note_seq) ∨
    (∃ err, Claude.claude_consume expected [TakopiEvent.started sd] s =
        ([], .error err)) := by
  by_cases heng : sd.resume.engine = Claude.ENGINE
  · cases hexp : expected with
    | some t =>
        by_cases hst : sd.resume = t
        · have hteng : t.engine = Claude.ENGINE := by
            rw [← hst]
            exact heng
          left
          exact ⟨{ s with found_session := some t },
            by simp [Claude.claude_consume, heng, hst, hteng], rfl, rfl, rfl⟩
        · right
          refine ⟨.sessionMismatch, ?_⟩
          simp [Claude.claude_consume, heng, hst]
    | none =>
        by_cases hmem : sd.resume ∈ s.locks_held
        · right
          refine ⟨.lockReacquire, ?_⟩
          simp [Claude.claude_consume, heng, hmem]
        · left
          exact ⟨{ s with
              locks_held := sd.resume :: s.locks_held,
              session_lock := some sd.resume,
              session_lock_acquired := true,
              found_session := some sd.resume },
            by simp [Claude.claude_consume, heng, hmem], rfl, rfl, rfl⟩
  · right
    refine ⟨.wrongEngine, ?_⟩
    simp [Claude.claude_consume, heng]

theorem claude_step_of_did (paths : PathsFns) (title : String)
    (expected : Option ResumeToken) (s : Claude.ClaudeRunState)
    (jl : JsonLine) (h : s.did_emit_completed = true) :
    Claude.claude_step paths title expected s jl = ([], .ok s) := by
  simp [Claude.claude_step, h]

theorem claude_step_eval_none (paths : PathsFns) (title : String)
    (expected : Option ResumeToken) (s : Claude.ClaudeRunState) (jl : JsonLine)
    (hdid : s.did_emit_completed = false) (hdata : jl.data = none) :
    Claude.claude_step paths title expected s jl =
      ([Claude._note_completed ("claude.note." ++ toString (s.note_seq + 1))
          "invalid JSON from claude; ignoring line" false
          (some [("line", .str jl.raw)])],
       .ok { s with note_seq := s.note_seq + 1 }) := by
  unfold Claude.claude_step
  rw [if_neg (show ¬(s.did_emit_completed = true) by simp [hdid]), hdata]

theorem claude_step_eval_some (paths : PathsFns) (title : String)
    (expected : Option ResumeToken) (s : Claude.ClaudeRunState) (jl : JsonLine)
    (evt : JVal) (hdid : s.did_emit_completed = false)
    (hdata : jl.data = some evt) :
    Claude.claude_step paths title expected s jl =
      match Claude.translate_claude_event paths evt title s.st with
      | .error e => ([], .error (.pyErr e))
      | .ok (evts, st1) =>
          Claude.claude_consume expected evts { s with st := st1 } := by
  unfold Claude.claude_step
  rw [if_neg (show ¬(s.did_emit_completed = true) by simp [hdid]), hdata]

theorem claude_step_shape (paths : PathsFns) (title : String)
    (expected : Option ResumeToken) (s : Claude.ClaudeRunState) (jl : JsonLine)
    (hdid : s.did_emit_completed = false) :
    (∀ s', (Claude.claude_step paths title expected s jl).2 = .ok s' →
        (s'.did_emit_completed = false ∧
          noCompleted (Claude.claude_step paths title expected s jl).1) ∨
        (s'.did_emit_completed = true ∧
          endsCompleted (Claude.claude_step paths title expected s jl).1)) ∧
    (∀ err, (Claude.claude_step paths title expected s jl).2 = .error err →
        noCompleted (Claude.claude_step paths title expected s jl).1) := by
  cases hdata : jl.data with
  | none =>
      rw [claude_step_eval_none paths title expected s jl hdid hdata]
      constructor
      · intro s' hs
        simp only [Except.ok.injEq] at hs
        left
        constructor
        · rw [← hs]
          exact hdid
        · intro e he
          simp only [List.mem_singleton] at he
          subst he
          rfl
      · intro err herr
        simp at herr
  | some evt =>
      rw [claude_step_eval_some paths title expected s jl evt hdid hdata]
      cases htr : Claude.translate_claude_event paths evt title s.st with
      | error e =>
          dsimp only
          constructor
          · intro s' hs
            simp at hs
          · intro err _
            exact noCompleted_nil
      | ok pair =>
          obtain ⟨evts, st1⟩ := pair
          dsimp only
          rcases translate_claude_cases paths evt title s.st st1 evts htr with
            hsh | ⟨sd, hsh, _, _⟩ | hsh | ⟨front, c, hsh, hfront, _, _, _⟩
          · subst hsh
            constructor
            · intro s' hs
              simp only [Claude.claude_consume, Except.ok.injEq] at hs ⊢
              left
              rw [← hs]
              exact ⟨hdid, noCompleted_nil⟩
            · intro err herr
              simp [Claude.claude_consume] at herr
          · subst hsh
            rcases claude_consume_started expected sd
                { s with st := st1 } with ⟨s', heq, hd, _, _⟩ | ⟨err, heq⟩
            · rw [heq]
              constructor
              · intro s'' hs
                simp only [Except.ok.injEq] at hs
                subst hs
                left
                refine ⟨by rw [hd]; exact hdid, ?_⟩
                intro e he
                simp only [List.mem_singleton] at he
                subst he
                rfl
              · intro err herr
                simp at herr
            · rw [heq]
              constructor
              · intro s'' hs
                simp at hs
              · intro err' _
                exact noCompleted_nil
          · rw [claude_consume_actions expected evts { s with st := st1 } hsh]
            constructor
            · intro s' hs
              simp only [Except.ok.injEq] at hs
              subst hs
              left
              exact ⟨hdid, actions_noCompleted hsh⟩
            · intro err herr
              simp at herr
          · subst hsh
            rw [claude_consume_front_completed expected front c
              { s with st := st1 }
              (fun e he => (hfront e he).imp fun ad hh => hh.1)]
            constructor
            · intro s' hs
              simp only [Except.ok.injEq] at hs
              subst hs
              right
              refine ⟨rfl, front, c, rfl, ?_⟩
              exact actions_noCompleted fun e he => (hfront e he).imp fun ad hh => hh.1
            · intro err herr
              simp at herr

theorem claude_run_lines_of_did (paths : PathsFns) (title : String)
    (expected : Option ResumeToken) :
    ∀ (lines : List JsonLine) (s : Claude.ClaudeRunState),
      s.did_emit_completed = true →
      Claude.claude_run_lines paths title expected lines s = ([], .ok s) := by
  intro lines
  induction lines with
  | nil => intro s _; rfl
  | cons jl rest ih =>
      intro s h
      simp only [Claude.claude_run_lines, claude_step_of_did paths title expected s jl h]
      rw [ih s h]
      rfl

theorem claude_run_lines_shape (paths : PathsFns) (title : String)
    (expected : Option ResumeToken) :
    ∀ (lines : List JsonLine) (s : Claude.ClaudeRunState),
      s.did_emit_completed = false →
      (∀ s', (Claude.claude_run_lines paths title expected lines s).2 = .ok s' →
          (s'.did_emit_completed = false ∧
            noCompleted (Claude.claude_run_lines paths title expected lines s).1) ∨
          (s'.did_emit_completed = true ∧
            endsCompleted (Claude.claude_run_lines paths title expected lines s).1)) ∧
      (∀ err,
          (Claude.claude_run_lines paths title expected lines s).2 = .error err →
          noCompleted (Claude.claude_run_lines paths title expected lines s).1) := by
  intro lines
  induction lines with
  | nil =>
      intro s hdid
      constructor
      · intro s' hs
        simp only [Claude.claude_run_lines, Except.ok.injEq] at hs
        subst hs
        exact .inl ⟨hdid, noCompleted_nil⟩
      · intro err herr
        simp [Claude.claude_run_lines] at herr
  | cons jl rest ih =>
      intro s hdid
      obtain ⟨hstep_ok, hstep_err⟩ := claude_step_shape paths title expected s jl hdid
      cases hstep : Claude.claude_step paths title expected s jl with
      | mk es r =>
          rw [hstep] at hstep_ok hstep_err
          cases r with
          | error err =>
              simp only [Claude.claude_run_lines, hstep]
              exact ⟨fun s' hs => absurd hs (by simp),
                fun err' herr => hstep_err err rfl⟩
          | ok s1 =>
              rcases hstep_ok s1 rfl with ⟨hd1, hnc⟩ | ⟨hd1, hec⟩
              · obtain ⟨ihok, iherr⟩ := ih s1 hd1
                simp only [Claude.claude_run_lines, hstep]
                constructor
                · intro s' hs
                  cases hrest : Claude.claude_run_lines paths title expected rest s1 with
                  | mk es2 r2 =>
                      rw [hrest] at ihok hs
                      simp only at hs
                      rcases r2 with err2 | s2
                      · simp at hs
                      · simp only [Except.ok.injEq] at hs
                        subst hs
                        rcases ihok _ rfl with ⟨ha, hb⟩ | ⟨ha, hb⟩
                        · exact .inl ⟨ha, noCompleted_append hnc hb⟩
                        · exact .inr ⟨ha, endsCompleted_append_left hnc hb⟩
                · intro err herr
                  cases hrest : Claude.claude_run_lines paths title expected rest s1 with
                  | mk es2 r2 =>
                      rw [hrest] at iherr herr
                      simp only at herr
                      rcases r2 with err2 | s2
                      · simp only [Except.error.injEq] at herr
                        exact noCompleted_append hnc (iherr err2 rfl)
                      · simp at herr
              · simp only [Claude.claude_run_lines, hstep]
                rw [claude_run_lines_of_did paths title expected rest s1 hd1]
                constructor
                · intro s' hs
                  simp only [Except.ok.injEq] at hs
                  subst hs
                  right
                  refine ⟨hd1, ?_⟩
                  simpa using hec
                · intro err herr
                  simp at herr

/-! ## C1 machinery, codex side -/

theorem translate_command_item_mem (paths : PathsFns) (item : JVal)
    (action_id : String) (phase : ActionPhase) :
    ∀ e ∈ Codex._translate_command_item paths item action_id phase,
      ∃ ad, e = TakopiEvent.action ad ∧ ad.engine = Codex.ENGINE := by
  unfold Codex._translate_command_item
  split <;>
    (intro e he
     simp only [List.mem_singleton] at he
     subst he
     exact ⟨_, rfl, rfl⟩)

theorem translate_web_search_item_mem (item : JVal) (action_id : String)
    (phase : ActionPhase) :
    ∀ e ∈ Codex._translate_web_search_item item action_id phase,
      ∃ ad, e = TakopiEvent.action ad ∧ ad.engine = Codex.ENGINE := by
  unfold Codex._translate_web_search_item
  split <;>
    (intro e he
     simp only [List.mem_singleton] at he
     subst he
     exact ⟨_, rfl, rfl⟩)

theorem translate_note_item_mem (item : JVal) (item_type : JVal)
    (action_id : String) (phase : ActionPhase) :
    ∀ e ∈ Codex._translate_note_item item item_type action_id phase,
      ∃ ad, e = TakopiEvent.action ad ∧ ad.engine = Codex.ENGINE := by
  unfold Codex._translate_note_item
  repeat' split
  all_goals
    intro e he
    simp only [List.mem_singleton] at he
    subst he
    exact ⟨_, rfl, rfl⟩

theorem translate_error_item_mem (item : JVal) (action_id : String)
    (phase : ActionPhase) :
    ∀ e ∈ Codex._translate_error_item item action_id phase,
      ∃ ad, e = TakopiEvent.action ad ∧ ad.engine = Codex.ENGINE := by
  unfold Codex._translate_error_item
  split
  · intro e he
    simp only [List.mem_singleton] at he
    subst he
    exact ⟨_, rfl, rfl⟩
  · intro e he
    simp at he

theorem translate_tool_item_mem (item : JVal) (item_type : JVal)
    (action_id : String) (phase : ActionPhase) (r : List TakopiEvent)
    (h : Codex._translate_tool_item item item_type action_id phase = .ok r) :
    ∀ e ∈ r, ∃ ad, e = TakopiEvent.action ad ∧ ad.engine = Codex.ENGINE := by
  unfold Codex._translate_tool_item at h
  repeat' split at h
  all_goals try dsimp only at h
  all_goals
    try (injection h with h2
         subst h2
         intro e he
         simp only [List.mem_singleton] at he
         subst he
         exact ⟨_, rfl, rfl⟩)
  all_goals exact absurd h (by simp)

theorem translate_file_change_item_mem (item : JVal) (action_id : String)
    (phase : ActionPhase) (r : List TakopiEvent)
    (h : Codex._translate_file_change_item item action_id phase = .ok r) :
    ∀ e ∈ r, ∃ ad, e = TakopiEvent.action ad ∧ ad.engine = Codex.ENGINE := by
  unfold Codex._translate_file_change_item at h
  split at h
  · split at h
    · exact absurd h (by simp)
    · injection h with h2
      subst h2
      intro e he
      simp only [List.mem_singleton] at he
      subst he
      exact ⟨_, rfl, rfl⟩
  · injection h with h2
    subst h2
    intro e he
    simp at he

theorem translate_item_mem (paths : PathsFns) (etype : String) (item : JVal)
    (r : List TakopiEvent)
    (h : Codex._translate_item_event paths etype item = .ok r) :
    ∀ e ∈ r, ∃ ad, e = TakopiEvent.action ad ∧ ad.engine = Codex.ENGINE := by
  unfold Codex._translate_item_event at h
  split at h
  case isFalse => exact absurd h (by simp)
  case isTrue =>
  dsimp only at h
  generalize ht0 : (if (item.dGet "type").truthy = true then item.dGet "type"
    else item.dGet "item_type") = t0 at h
  generalize ht1 : (if t0.eqs "assistant_message" = true then
    JVal.str "agent_message" else t0) = t1 at h
  generalize hph : (if etype = "item.started" then ActionPhase.started
    else if etype = "item.updated" then ActionPhase.updated
    else ActionPhase.completed) = ph at h
  repeat' split at h
  all_goals
    try (injection h with h2
         subst h2
         intro e he
         simp at he)
  all_goals
    try (injection h with h2
         subst h2
         first
         | exact translate_error_item_mem _ _ _
         | exact translate_command_item_mem _ _ _ _
         | exact translate_web_search_item_mem _ _ _
         | exact translate_note_item_mem _ _ _ _)
  all_goals
    first
    | exact translate_tool_item_mem _ _ _ _ _ h
    | exact translate_file_change_item_mem _ _ _ _ h

theorem translate_codex_cases (paths : PathsFns) (event : JVal) (title : String)
    (r : List TakopiEvent)
    (h : Codex.translate_codex_event paths event title = .ok r) :
    r = [] ∨
    (∃ sd, r = [TakopiEvent.started sd] ∧
      sd.resume.engine = Codex.ENGINE ∧ sd.engine = Codex.ENGINE) ∨
    (∀ e ∈ r, ∃ ad, e = TakopiEvent.action ad) := by
  unfold Codex.translate_codex_event at h
  split at h
  case isFalse => exact absurd h (by simp)
  case isTrue =>
  dsimp only at h
  split at h
  case isTrue =>
    split at h
    case isTrue =>
      injection h with h2
      subst h2
      exact .inr (.inl ⟨_, rfl, rfl, rfl⟩)
    case isFalse =>
      injection h with h2
      subst h2
      exact .inl rfl
  case isFalse =>
  split at h
  case isTrue =>
    refine .inr (.inr ?_)
    intro e he
    exact ⟨(translate_item_mem _ _ _ _ h e he).choose,
      (translate_item_mem _ _ _ _ h e he).choose_spec.1⟩
  case isFalse =>
    injection h with h2
    subst h2
    exact .inl rfl

theorem codex_consume_actions (expected : Option ResumeToken) :
    ∀ (evts : List TakopiEvent) (s : Codex.CodexRunState),
      (∀ e ∈ evts, ∃ ad, e = TakopiEvent.action ad) →
      Codex.codex_consume expected evts s = (evts, .ok s) := by
  intro evts
  induction evts with
  | nil => intro s _; rfl
  | cons e rest ih =>
      intro s h
      obtain ⟨ad, rfl⟩ := h _ (List.mem_cons_self e rest)
      simp only [Codex.codex_consume]
      rw [ih s fun x hx => h x (List.mem_cons_of_mem _ hx)]

theorem codex_consume_started (expected : Option ResumeToken)
    (sd : StartedData) (s : Codex.CodexRunState) :
    (Codex.codex_consume expected [TakopiEvent.started sd] s = ([], .ok s)) ∨
    (∃ s', Codex.codex_consume expected [TakopiEvent.started sd] s =
        ([TakopiEvent.started sd], .ok s') ∧
      s'.did_emit_completed = s.did_emit_completed ∧
      s'.note_seq = s.note_seq ∧ s'.final_answer = s.final_answer) ∨
    (∃ err, Codex.codex_consume expected [TakopiEvent.started sd] s =
        ([], .error err)) := by
  cases hfs : s.found_session with
  | some t =>
      left
      simp [Codex.codex_consume, hfs]
  | none =>
      by_cases heng : sd.resume.engine = Codex.ENGINE
      · cases hexp : expected with
        | some t =>
            by_cases hst : sd.resume = t
            · have hteng : t.engine = Codex.ENGINE := by
                rw [← hst]
                exact heng
              right
              left
              exact ⟨{ s with found_session := some t },
                by simp [Codex.codex_consume, hfs, heng, hst, hteng],
                rfl, rfl, rfl⟩
            · right
              right
              refine ⟨.sessionMismatch, ?_⟩
              simp [Codex.codex_consume, hfs, heng, hst]
        | none =>
            by_cases hmem : sd.resume ∈ s.locks_held
            · right
              right
              refine ⟨.lockReacquire, ?_⟩
              simp [Codex.codex_consume, hfs, heng, hmem]
            · right
              left
              exact ⟨{ s with
                  locks_held := sd.resume :: s.locks_held,
                  session_lock := some sd.resume,
                  session_lock_acquired := true,
                  found_session := some sd.resume },
                by simp [Codex.codex_consume, hfs, heng, hmem], rfl, rfl, rfl⟩
      · right
        right
        refine ⟨.wrongEngine, ?_⟩
        simp [Codex.codex_consume, hfs, heng]

theorem codex_step_of_did (paths : PathsFns) (title : String)
    (expected : Option ResumeToken) (s : Codex.CodexRunState)
    (jl : JsonLine) (h : s.did_emit_completed = true) :
    Codex.codex_step paths title expected s jl = ([], .ok s) := by
  simp [Codex.codex_step, h]

theorem endsCompleted_single (c : CompletedData) :
    endsCompleted [TakopiEvent.completed c] := ⟨[], c, rfl, noCompleted_nil⟩

theorem sniff_fields (s : Codex.CodexRunState) (evt : JVal) :
    ∀ s', Codex._sniff_agent_message s evt = .ok s' →
      s'.did_emit_completed = s.did_emit_completed ∧
      s'.note_seq = s.note_seq ∧ s'.found_session = s.found_session ∧
      s'.turn_index = s.turn_index ∧ s'.locks_held = s.locks_held := by
  intro s' h
  unfold Codex._sniff_agent_message at h
  split at h
  case isFalse =>
    injection h with h2
    subst h2
    exact ⟨rfl, rfl, rfl, rfl, rfl⟩
  case isTrue =>
  dsimp only at h
  generalize hitem : (if (evt.dGet "item").truthy = true then evt.dGet "item"
    else JVal.obj []) = item at h
  generalize ht0 : (if (item.dGet "type").truthy = true then item.dGet "type"
    else item.dGet "item_type") = t0 at h
  generalize ht1 : (if t0.eqs "assistant_message" = true then
    JVal.str "agent_message" else t0) = t1 at h
  repeat' split at h
  all_goals
    first
    | (injection h with h2
       subst h2
       exact ⟨rfl, rfl, rfl, rfl, rfl⟩)
    | exact absurd h (by simp)

theorem codex_step_shape (paths : PathsFns) (title : String)
    (expected : Option ResumeToken) (s : Codex.CodexRunState) (jl : JsonLine)
    (hdid : s.did_emit_completed = false) :
    (∀ s', (Codex.codex_step paths title expected s jl).2 = .ok s' →
        (s'.did_emit_completed = false ∧
          noCompleted (Codex.codex_step paths title expected s jl).1) ∨
        (s'.did_emit_completed = true ∧
          endsCompleted (Codex.codex_step paths title expected s jl).1)) ∧
    (∀ err, (Codex.codex_step paths title expected s jl).2 = .error err →
        noCompleted (Codex.codex_step paths title expected s jl).1) := by
  unfold Codex.codex_step
  rw [if_neg (show ¬(s.did_emit_completed = true) by simp [hdid])]
  cases hdata : jl.data with
  | none =>
      dsimp only
      constructor
      · intro s' hs
        simp only [Except.ok.injEq] at hs
        subst hs
        left
        refine ⟨hdid, ?_⟩
        intro e he
        simp only [List.mem_singleton] at he
        subst he
        rfl
      · intro err herr
        simp at herr
  | some evt =>
      dsimp only
      by_cases hdict : evt.isDict = true
      case neg =>
        rw [if_neg hdict]
        exact ⟨fun s' hs => absurd hs (by simp),
          fun err _ => noCompleted_nil⟩
      case pos =>
      rw [if_pos hdict]
      by_cases he1 : (evt.dGet "type").eqs "error" = true
      case pos =>
        rw [if_pos he1]
        by_cases hf : ((evt.dGet "fatal").isTrue || (evt.dGet "fatal").isNull) = true
        case pos =>
          rw [if_pos hf]
          constructor
          · intro s' hs
            simp only [Except.ok.injEq] at hs
            subst hs
            exact .inr ⟨rfl, endsCompleted_single _⟩
          · intro err herr
            simp at herr
        case neg =>
          rw [if_neg hf]
          constructor
          · intro s' hs
            simp only [Except.ok.injEq] at hs
            subst hs
            left
            refine ⟨hdid, ?_⟩
            intro e he
            simp only [List.mem_singleton] at he
            subst he
            rfl
          · intro err herr
            simp at herr
      case neg =>
      rw [if_neg he1]
      by_cases he2 : (evt.dGet "type").eqs "turn.failed" = true
      case pos =>
        rw [if_pos he2]
        generalize herrd : (if (evt.dGet "error").truthy = true then
          evt.dGet "error" else JVal.obj []) = errd
        by_cases hde : errd.isDict = true
        case pos =>
          rw [if_pos hde]
          constructor
          · intro s' hs
            simp only [Except.ok.injEq] at hs
            subst hs
            exact .inr ⟨rfl, endsCompleted_single _⟩
          · intro err herr
            simp at herr
        case neg =>
          rw [if_neg hde]
          exact ⟨fun s' hs => absurd hs (by simp),
            fun err _ => noCompleted_nil⟩
      case neg =>
      rw [if_neg he2]
      by_cases he3 : (evt.dGet "type").eqs "turn.rate_limited" = true
      case pos =>
        rw [if_pos he3]
        have hclose : ∀ msg : String,
            (∀ s', ((.ok { s with note_seq := s.note_seq + 1 } :
                    Except RunError Codex.CodexRunState) = .ok s') →
                (s'.did_emit_completed = false ∧
                  noCompleted [Codex._note_completed
                    ("codex.note." ++ toString (s.note_seq + 1)) msg false none]) ∨
                (s'.did_emit_completed = true ∧
                  endsCompleted [Codex._note_completed
                    ("codex.note." ++ toString (s.note_seq + 1)) msg false none])) ∧
            (∀ err, ((.ok { s with note_seq := s.note_seq + 1 } :
                    Except RunError Codex.CodexRunState) = .error err) →
                noCompleted [Codex._note_completed
                  ("codex.note." ++ toString (s.note_seq + 1)) msg false none]) := by
          intro msg
          constructor
          · intro s' hs
            simp only [Except.ok.injEq] at hs
            subst hs
            left
            refine ⟨hdid, ?_⟩
            intro e he
            simp only [List.mem_singleton] at he
            subst he
            rfl
          · intro err herr
            simp at herr
        cases hr : evt.dGet "retry_after_ms" with
        | num n => exact hclose _
        | bool b => exact hclose _
        | null => exact hclose _
        | str v => exact hclose _
        | arr xs => exact hclose _
        | obj kvs => exact hclose _
      case neg =>
      rw [if_neg he3]
      by_cases he4 : (evt.dGet "type").eqs "turn.started" = true
      case pos =>
        rw [if_pos he4]
        constructor
        · intro s' hs
          simp only [Except.ok.injEq] at hs
          subst hs
          left
          refine ⟨hdid, ?_⟩
          intro e he
          simp only [List.mem_singleton] at he
          subst he
          rfl
        · intro err herr
          simp at herr
      case neg =>
      rw [if_neg he4]
      by_cases he5 : (evt.dGet "type").eqs "turn.completed" = true
      case pos =>
        rw [if_pos he5]
        constructor
        · intro s' hs
          simp only [Except.ok.injEq] at hs
          subst hs
          exact .inr ⟨rfl, endsCompleted_single _⟩
        · intro err herr
          simp at herr
      case neg =>
      rw [if_neg he5]
      cases hsn : Codex._sniff_agent_message s evt with
      | error e =>
          dsimp only
          exact ⟨fun s' hs => absurd hs (by simp),
            fun err _ => noCompleted_nil⟩
      | ok s1 =>
          dsimp only
          have hd1 : s1.did_emit_completed = false := by
            rw [(sniff_fields s evt s1 hsn).1]
            exact hdid
          cases htr : Codex.translate_codex_event paths evt title with
          | error e =>
              dsimp only
              exact ⟨fun s' hs => absurd hs (by simp),
                fun err _ => noCompleted_nil⟩
          | ok evts =>
              dsimp only
              rcases translate_codex_cases paths evt title evts htr with
                hsh | ⟨sd, hsh, _, _⟩ | hsh
              · subst hsh
                constructor
                · intro s' hs
                  simp only [Codex.codex_consume, Except.ok.injEq] at hs ⊢
                  left
                  rw [← hs]
                  exact ⟨hd1, noCompleted_nil⟩
                · intro err herr
                  simp [Codex.codex_consume] at herr
              · subst hsh
                rcases codex_consume_started expected sd s1 with
                  heq | ⟨s', heq, hd, _, _⟩ | ⟨err, heq⟩
                · rw [heq]
                  constructor
                  · intro s'' hs
                    simp only [Except.ok.injEq] at hs
                    subst hs
                    exact .inl ⟨hd1, noCompleted_nil⟩
                  · intro err herr
                    simp at herr
                · rw [heq]
                  constructor
                  · intro s'' hs
                    simp only [Except.ok.injEq] at hs
                    subst hs
                    left
                    refine ⟨by rw [hd]; exact hd1, ?_⟩
                    intro e he
                    simp only [List.mem_singleton] at he
                    subst he
                    rfl
                  · intro err herr
                    simp at herr
                · rw [heq]
                  exact ⟨fun s'' hs => absurd hs (by simp),
                    fun err' _ => noCompleted_nil⟩
              · rw [codex_consume_actions expected evts s1 hsh]
                constructor
                · intro s' hs
                  simp only [Except.ok.injEq] at hs
                  subst hs
                  exact .inl ⟨hd1, actions_noCompleted hsh⟩
                · intro err herr
                  simp at herr

theorem codex_run_lines_of_did (paths : PathsFns) (title : String)
    (expected : Option ResumeToken) :
    ∀ (lines : List JsonLine) (s : Codex.CodexRunState),
      s.did_emit_completed = true →
      Codex.codex_run_lines paths title expected lines s = ([], .ok s) := by
  intro lines
  induction lines with
  | nil => intro s _; rfl
  | cons jl rest ih =>
      intro s h
      simp only [Codex.codex_run_lines, codex_step_of_did paths title expected s jl h]
      rw [ih s h]
      rfl

theorem codex_run_lines_shape (paths : PathsFns) (title : String)
    (expected : Option ResumeToken) :
    ∀ (lines : List JsonLine) (s : Codex.CodexRunState),
      s.did_emit_completed = false →
      (∀ s', (Codex.codex_run_lines paths title expected lines s).2 = .ok s' →
          (s'.did_emit_completed = false ∧
            noCompleted (Codex.codex_run_lines paths title expected lines s).1) ∨
          (s'.did_emit_completed = true ∧
            endsCompleted (Codex.codex_run_lines paths title expected lines s).1)) ∧
      (∀ err,
          (Codex.codex_run_lines paths title expected lines s).2 = .error err →
          noCompleted (Codex.codex_run_lines paths title expected lines s).1) := by
  intro lines
  induction lines with
  | nil =>
      intro s hdid
      constructor
      · intro s' hs
        simp only [Codex.codex_run_lines, Except.ok.injEq] at hs
        subst hs
        exact .inl ⟨hdid, noCompleted_nil⟩
      · intro err herr
        simp [Codex.codex_run_lines] at herr
  | cons jl rest ih =>
      intro s hdid
      obtain ⟨hstep_ok, hstep_err⟩ := codex_step_shape paths title expected s jl hdid
      cases hstep : Codex.codex_step paths title expected s jl with
      | mk es r =>
          rw [hstep] at hstep_ok hstep_err
          cases r with
          | error err =>
              simp only [Codex.codex_run_lines, hstep]
              exact ⟨fun s' hs => absurd hs (by simp),
                fun err' herr => hstep_err err rfl⟩
          | ok s1 =>
              rcases hstep_ok s1 rfl with ⟨hd1, hnc⟩ | ⟨hd1, hec⟩
              · obtain ⟨ihok, iherr⟩ := ih s1 hd1
                simp only [Codex.codex_run_lines, hstep]
                constructor
                · intro s' hs
                  cases hrest : Codex.codex_run_lines paths title expected rest s1 with
                  | mk es2 r2 =>
                      rw [hrest] at ihok hs
                      simp only at hs
                      rcases r2 with err2 | s2
                      · simp at hs
                      · simp only [Except.ok.injEq] at hs
                        subst hs
                        rcases ihok _ rfl with ⟨ha, hb⟩ | ⟨ha, hb⟩
                        · exact .inl ⟨ha, noCompleted_append hnc hb⟩
                        · exact .inr ⟨ha, endsCompleted_append_left hnc hb⟩
                · intro err herr
                  cases hrest : Codex.codex_run_lines paths title expected rest s1 with
                  | mk es2 r2 =>
                      rw [hrest] at iherr herr
                      simp only at herr
                      rcases r2 with err2 | s2
                      · simp only [Except.error.injEq] at herr
                        exact noCompleted_append hnc (iherr err2 rfl)
                      · simp at herr
              · simp only [Codex.codex_run_lines, hstep]
                rw [codex_run_lines_of_did paths title expected rest s1 hd1]
                constructor
                · intro s' hs
                  simp only [Except.ok.injEq] at hs
                  subst hs
                  right
                  refine ⟨hd1, ?_⟩
                  simpa using hec
                · intro err herr
                  simp at herr

theorem endsCompleted_note (n : TakopiEvent) (hn : n.isCompleted = false)
    (c : CompletedData) : endsCompleted [n, TakopiEvent.completed c] :=
  ⟨[n], c, rfl, by
    intro e he
    simp only [List.mem_singleton] at he
    subst he
    exact hn⟩

theorem codex_consume_did (expected : Option ResumeToken) :
    ∀ (evts : List TakopiEvent) (s s' : Codex.CodexRunState),
      (Codex.codex_consume expected evts s).2 = .ok s' →
      s'.did_emit_completed = s.did_emit_completed := by
  intro evts
  induction evts with
  | nil =>
      intro s s' h
      simp only [Codex.codex_consume, Except.ok.injEq] at h
      rw [← h]
  | cons e rest ih =>
      intro s s' h
      cases e with
      | action ad => exact ih s s' h
      | completed cd => exact ih s s' h
      | started sd =>
          simp only [Codex.codex_consume] at h
          cases hfs : s.found_session with
          | some t0 =>
              rw [hfs] at h
              dsimp only at h
              exact ih s s' h
          | none =>
              rw [hfs] at h
              dsimp only at h
              by_cases heng : sd.resume.engine = Codex.ENGINE
              · rw [if_pos heng] at h
                cases hexp : expected with
                | some t =>
                    rw [hexp] at h ih
                    dsimp only at h
                    by_cases hst : sd.resume = t
                    · rw [if_pos hst] at h
                      exact ih { s with found_session := some sd.resume } s' h
                    · rw [if_neg hst] at h
                      simp at h
                | none =>
                    rw [hexp] at h ih
                    dsimp only at h
                    by_cases hmem : sd.resume ∈ s.locks_held
                    · rw [if_pos hmem] at h
                      simp at h
                    · rw [if_neg hmem] at h
                      exact ih { s with
                        locks_held := sd.resume :: s.locks_held,
                        session_lock := some sd.resume,
                        session_lock_acquired := true,
                        found_session := some sd.resume } s' h
              · rw [if_neg heng] at h
                simp at h

/-- C1 (counterexample): a run that raises yields no `CompletedEvent` at
all.  With a caller resume token `(claude, s1)` and a stream whose one
init event reveals the different session `s2`, `ClaudeRunner._run`
raises the session-mismatch defect after yielding zero events, so the
yielded sequence does not contain exactly one `CompletedEvent`, and has
no last element at all. -/
theorem c1_raising_run_counterexample :
    Claude.claude_run idPaths "claude" (some ⟨"claude", "s1"⟩)
      [mkInitLine "s2"] 0 "" = ([], some RunError.sessionMismatch) := rfl

/-- C1 (amended): for every run of either runner that terminates without
raising, the yielded sequence contains exactly one `CompletedEvent` and
it is the last element; and both line loops discard all remaining
translator output once the terminal event has been yielded (from a
state with `did_emit_completed` set they consume every remaining line
and yield nothing). -/
theorem c1_single_completed_amended (paths : PathsFns) (title : String)
    (resume : Option ResumeToken) (lines : List JsonLine) (rc : Int)
    (stderr_tail : String) :
    (∀ evs, Claude.claude_run paths title resume lines rc stderr_tail =
        (evs, none) →
      evs.countP TakopiEvent.isCompleted = 1 ∧
      ∃ c, evs.getLast? = some (TakopiEvent.completed c)) ∧
    (∀ evs, Codex.codex_run paths title resume lines rc stderr_tail =
        (evs, none) →
      evs.countP TakopiEvent.isCompleted = 1 ∧
      ∃ c, evs.getLast? = some (TakopiEvent.completed c)) ∧
    (∀ s : Claude.ClaudeRunState, s.did_emit_completed = true →
      Claude.claude_run_lines paths title resume lines s = ([], .ok s)) ∧
    (∀ s : Codex.CodexRunState, s.did_emit_completed = true →
      Codex.codex_run_lines paths title resume lines s = ([], .ok s)) := by
  refine ⟨?_, ?_,
    fun s h => claude_run_lines_of_did paths title resume lines s h,
    fun s h => codex_run_lines_of_did paths title resume lines s h⟩
  · intro evs hrun
    unfold Claude.claude_run at hrun
    obtain ⟨hok, herr⟩ := claude_run_lines_shape paths title resume lines
      Claude.initRunState rfl
    cases hrl : Claude.claude_run_lines paths title resume lines
        Claude.initRunState with
    | mk evs0 r =>
        rw [hrl] at hrun hok herr
        cases r with
        | error e =>
            dsimp only at hrun
            exact absurd hrun (by simp)
        | ok s =>
            dsimp only at hrun
            rcases hok s rfl with ⟨hd, hnc⟩ | ⟨hd, hec⟩
            · rw [if_neg (show ¬(s.did_emit_completed = true) by simp [hd])]
                at hrun
              by_cases hrc : rc = 0
              · rw [if_pos hrc] at hrun
                cases hfs : s.found_session with
                | none =>
                    rw [hfs] at hrun
                    dsimp only at hrun
                    simp only [Prod.mk.injEq] at hrun
                    rw [← hrun.1]
                    exact endsCompleted_count
                      (endsCompleted_append_left hnc (endsCompleted_single _))
                | some fs =>
                    rw [hfs] at hrun
                    dsimp only at hrun
                    simp only [Prod.mk.injEq] at hrun
                    rw [← hrun.1]
                    exact endsCompleted_count
                      (endsCompleted_append_left hnc (endsCompleted_single _))
              · rw [if_neg hrc] at hrun
                simp only [Prod.mk.injEq] at hrun
                rw [← hrun.1]
                exact endsCompleted_count
                  (endsCompleted_append_left hnc (endsCompleted_note _ (by rfl) _))
            · rw [if_pos hd] at hrun
              simp only [Prod.mk.injEq] at hrun
              rw [← hrun.1]
              exact endsCompleted_count hec
  · intro evs hrun
    unfold Codex.codex_run at hrun
    obtain ⟨hok, herr⟩ := codex_run_lines_shape paths title resume lines
      Codex.initRunState rfl
    cases hrl : Codex.codex_run_lines paths title resume lines
        Codex.initRunState with
    | mk evs0 r =>
        rw [hrl] at hrun hok herr
        cases r with
        | error e =>
            dsimp only at hrun
            exact absurd hrun (by simp)
        | ok s =>
            dsimp only at hrun
            rcases hok s rfl with ⟨hd, hnc⟩ | ⟨hd, hec⟩
            · rw [if_neg (show ¬(s.did_emit_completed = true) by simp [hd])]
                at hrun
              by_cases hrc : rc = 0
              · rw [if_pos hrc] at hrun
                cases hfs : s.found_session with
                | none =>
                    rw [hfs] at hrun
                    dsimp only at hrun
                    simp only [Prod.mk.injEq] at hrun
                    rw [← hrun.1]
                    exact endsCompleted_count
                      (endsCompleted_append_left hnc (endsCompleted_single _))
                | some fs =>
                    rw [hfs] at hrun
                    dsimp only at hrun
                    simp only [Prod.mk.injEq] at hrun
                    rw [← hrun.1]
                    exact endsCompleted_count
                      (endsCompleted_append_left hnc (endsCompleted_single _))
              · rw [if_neg hrc] at hrun
                simp only [Prod.mk.injEq] at hrun
                rw [← hrun.1]
                exact endsCompleted_count
                  (endsCompleted_append_left hnc (endsCompleted_note _ (by rfl) _))
            · rw [if_pos hd] at hrun
              simp only [Prod.mk.injEq] at hrun
              rw [← hrun.1]
              exact endsCompleted_count hec

/-- Witness for C1 (amended): a claude run closed by a `result` record
and a codex run with a non-zero exit code each yield exactly one
`CompletedEvent`. -/
theorem c1_single_completed_amended_witness :
    ((Claude.claude_run idPaths "claude" none [mkResultLine "hi"] 0 "").1.countP
      TakopiEvent.isCompleted = 1) ∧
    ((Codex.codex_run idPaths "codex" none [mkThreadLine "t0"] 1 "boom").1.countP
      TakopiEvent.isCompleted = 1) :=
  ⟨((c1_single_completed_amended idPaths "claude" none [mkResultLine "hi"] 0 "").1
      (Claude.claude_run idPaths "claude" none [mkResultLine "hi"] 0 "").1 rfl).1,
   ((c1_single_completed_amended idPaths "codex" none [mkThreadLine "t0"] 1
        "boom").2.1
      (Codex.codex_run idPaths "codex" none [mkThreadLine "t0"] 1 "boom").1 rfl).1⟩

/-- C2 (counterexample): when the codex stream revealed a session, the
exit code is zero and no terminal record was observed, the synthesized
`CompletedEvent` is a SUCCESS (`ok = true`, no error message), not the
failure with an explicit finished-without-a-result error that the claim
describes. -/
theorem c2_synthesized_terminal_counterexample :
    ((Codex.codex_run idPaths "codex" none [mkThreadLine "t1"] 0 "").2 = none) ∧
    ((Codex.codex_run idPaths "codex" none [mkThreadLine "t1"] 0 "").1.getLast? =
      some (Codex._completed_event (some ⟨"codex", "t1"⟩) true "" none none)) :=
  ⟨rfl, rfl⟩

/-- C2 (amended): when the translator stream never produced a terminal
record, the runner synthesizes the final `CompletedEvent` as follows.
Non-zero exit code: a failing event whose error message states only the
exit code — the stderr tail is carried in the detail payload of a
warning note emitted just before it, not in the error message.  Zero
exit code and no captured session: a failing event with an explicit
no-session error.  Zero exit code with a captured session: claude emits
a failing event with an explicit finished-without-a-result error whose
answer falls back to the last assistant text, while codex emits a
SUCCESS event (ok, no error) whose answer falls back to the last agent
message text. -/
theorem c2_synthesized_terminal_amended (paths : PathsFns) (title : String)
    (resume : Option ResumeToken) (lines : List JsonLine) (rc : Int)
    (stderr_tail : String) :
    (∀ evs0 s, Claude.claude_run_lines paths title resume lines
          Claude.initRunState = (evs0, .ok s) →
      s.did_emit_completed = false →
      Claude.claude_run paths title resume lines rc stderr_tail =
        (evs0 ++
          (if rc = 0 then
            match s.found_session with
            | none => [TakopiEvent.completed ⟨Claude.ENGINE, false, "", resume,
                some "claude finished but no session_id was captured", none⟩]
            | some fs => [TakopiEvent.completed ⟨Claude.ENGINE, false,
                orEmpty s.st.last_assistant_text, some fs,
                some "claude finished without a result event", none⟩]
          else
            [Claude._note_completed ("claude.note." ++ toString (s.note_seq + 1))
               ("claude failed (rc=" ++ toString rc ++ ").") false
               (some [("stderr_tail", JVal.str stderr_tail)]),
             TakopiEvent.completed ⟨Claude.ENGINE, false, "",
               s.found_session.orElse fun _ => resume,
               some ("claude failed (rc=" ++ toString rc ++ ")."), none⟩]),
         none)) ∧
    (∀ evs0 s, Codex.codex_run_lines paths title resume lines
          Codex.initRunState = (evs0, .ok s) →
      s.did_emit_completed = false →
      Codex.codex_run paths title resume lines rc stderr_tail =
        (evs0 ++
          (if rc = 0 then
            match s.found_session with
            | none => [Codex._completed_event resume false
                (orEmpty s.final_answer)
                (some "codex exec finished but no session_id/thread_id was captured")
                none]
            | some fs => [Codex._completed_event (some fs) true
                (orEmpty s.final_answer) none none]
          else
            [Codex._note_completed ("codex.note." ++ toString (s.note_seq + 1))
               ("codex exec failed (rc=" ++ toString rc ++ ").") false
               (some [("stderr_tail", JVal.str stderr_tail)]),
             Codex._completed_event (s.found_session.orElse fun _ => resume)
               false (orEmpty s.final_answer)
               (some ("codex exec failed (rc=" ++ toString rc ++ ").")) none]),
         none)) := by
  constructor
  · intro evs0 s hrl hdid
    unfold Claude.claude_run
    rw [hrl]
    dsimp only
    rw [if_neg (show ¬(s.did_emit_completed = true) by simp [hdid])]
    by_cases hrc : rc = 0
    · simp only [if_pos hrc]
      cases hfs : s.found_session with
      | none => rfl
      | some fs => rfl
    · simp only [if_neg hrc]
  · intro evs0 s hrl hdid
    unfold Codex.codex_run
    rw [hrl]
    dsimp only
    rw [if_neg (show ¬(s.did_emit_completed = true) by simp [hdid])]
    by_cases hrc : rc = 0
    · simp only [if_pos hrc]
      cases hfs : s.found_session with
      | none => rfl
      | some fs => rfl
    · simp only [if_neg hrc]

/-- Witness for C2 (amended) on an empty stream with exit code 0: the
no-session failure event is synthesized. -/
theorem c2_synthesized_terminal_amended_witness :
    Claude.claude_run idPaths "claude" none [] 0 "" =
      ([] ++ [TakopiEvent.completed ⟨Claude.ENGINE, false, "", none,
          some "claude finished but no session_id was captured", none⟩],
       none) :=
  (c2_synthesized_terminal_amended idPaths "claude" none [] 0 "").1 []
    Claude.initRunState rfl rfl

/-- C5 (counterexample): a codex run whose stream reveals the expected
session `s1` and then a conflicting session `s2` does not raise — the
post-discovery `thread.started` event is silently skipped (one
`StartedEvent`, normal termination), so a revealed inconsistent session
identity does not always abort the run. -/
theorem c5_session_mismatch_counterexample :
    ((Codex.codex_run idPaths "codex" (some ⟨"codex", "s1"⟩)
        [mkThreadLine "s1", mkThreadLine "s2"] 0 "").2 = none) ∧
    ((Codex.codex_run idPaths "codex" (some ⟨"codex", "s1"⟩)
        [mkThreadLine "s1", mkThreadLine "s2"] 0 "").1.countP
      TakopiEvent.isStarted = 1) :=
  ⟨rfl, rfl⟩

/-- C5 (amended): at session-discovery time both runners abort on a
contract violation by raising a defect — yielding no event for it, in
particular no warning and no failing `CompletedEvent`: a discovered
session that differs from the caller-supplied resume token raises the
session-mismatch defect and a session token for the wrong engine raises
the wrong-engine defect (claude re-checks every `StartedEvent`, since it
never records a found session).  But only at discovery: once the codex
runner has recorded a found session, later inconsistent identities are
silently skipped. -/
theorem c5_session_mismatch_amended (t : ResumeToken) (sd : StartedData)
    (sC : Claude.ClaudeRunState) (sX : Codex.CodexRunState) :
    (sd.resume.engine = Claude.ENGINE → sd.resume ≠ t →
      Claude.claude_consume (some t) [TakopiEvent.started sd] sC =
        ([], .error RunError.sessionMismatch)) ∧
    (sd.resume.engine ≠ Claude.ENGINE →
      Claude.claude_consume (some t) [TakopiEvent.started sd] sC =
        ([], .error RunError.wrongEngine)) ∧
    (sX.found_session = none → sd.resume.engine = Codex.ENGINE →
      sd.resume ≠ t →
      Codex.codex_consume (some t) [TakopiEvent.started sd] sX =
        ([], .error RunError.sessionMismatch)) ∧
    (sX.found_session = none → sd.resume.engine ≠ Codex.ENGINE →
      Codex.codex_consume (some t) [TakopiEvent.started sd] sX =
        ([], .error RunError.wrongEngine)) ∧
    (∀ fs, sX.found_session = some fs →
      Codex.codex_consume (some t) [TakopiEvent.started sd] sX =
        ([], .ok sX)) := by
  refine ⟨?_, ?_, ?_, ?_, ?_⟩
  · intro heng hne
    simp [Claude.claude_consume, heng, hne]
  · intro heng
    simp [Claude.claude_consume, heng]
  · intro hfs heng hne
    simp [Codex.codex_consume, hfs, heng, hne]
  · intro hfs heng
    simp [Codex.codex_consume, hfs, heng]
  · intro fs hfs
    simp [Codex.codex_consume, hfs]

/-- Witness for C5 (amended): codex discovery of session `s2` under the
caller token `(codex, s1)` raises the session-mismatch defect. -/
theorem c5_session_mismatch_amended_witness :
    Codex.codex_consume (some ⟨"codex", "s1"⟩)
      [TakopiEvent.started ⟨"codex", ⟨"codex", "s2"⟩, "t", none⟩]
      Codex.initRunState = ([], .error RunError.sessionMismatch) :=
  (c5_session_mismatch_amended ⟨"codex", "s1"⟩
    ⟨"codex", ⟨"codex", "s2"⟩, "t", none⟩ Claude.initRunState
    Codex.initRunState).2.2.1 rfl rfl (by decide)

/-- C6: non-fatal upstream conditions become warning-level
`ActionEvent`s and never terminate the stream, and only explicit fatal
records terminate it early.  In order: a codex `error` record whose
`fatal` flag is neither `True` nor absent yields exactly one
warning-level note and leaves the terminal flag clear; a
`turn.rate_limited` record yields one warning-level note and leaves the
flag clear; per-item `error` items translate to warning-level completed
actions only; claude permission denials translate to warning-level
completed actions only; a codex record that is not a fatal `error`, not
`turn.failed` and not `turn.completed` never sets the terminal flag;
and the claude translator emits a `CompletedEvent` only for `result`
records. -/
theorem c6_nonfatal_warning_continues (paths : PathsFns) (title raw : String)
    (expected : Option ResumeToken) (s : Codex.CodexRunState)
    (evt item : JVal) (action_id : String) (phase : ActionPhase) (n : Nat)
    (denials : List JVal) (event2 : JVal) (st st' : Claude.ClaudeStreamState)
    (es : List TakopiEvent) :
    (s.did_emit_completed = false → evt.isDict = true →
     (evt.dGet "type").eqs "error" = true →
     (evt.dGet "fatal").isTrue = false → (evt.dGet "fatal").isNull = false →
     Codex.codex_step paths title expected s ⟨some evt, raw⟩ =
       ([Codex._note_completed ("codex.note." ++ toString (s.note_seq + 1))
           (if (evt.dGet "message").truthy then pyStr (evt.dGet "message")
            else "codex error") false
           (some [("code", evt.dGet "code"), ("fatal", evt.dGet "fatal")])],
        .ok { s with note_seq := s.note_seq + 1 })) ∧
    (s.did_emit_completed = false → evt.isDict = true →
     (evt.dGet "type").eqs "error" = false →
     (evt.dGet "type").eqs "turn.failed" = false →
     (evt.dGet "type").eqs "turn.rate_limited" = true →
     ∃ msg, Codex.codex_step paths title expected s ⟨some evt, raw⟩ =
       ([Codex._note_completed ("codex.note." ++ toString (s.note_seq + 1))
           msg false none],
        .ok { s with note_seq := s.note_seq + 1 })) ∧
    (∀ e ∈ Codex._translate_error_item item action_id phase,
      ∃ ad, e = TakopiEvent.action ad ∧ ad.action.kind = .warning ∧
        ad.level = some .warning ∧ ad.ok = some false) ∧
    (∀ e ∈ Claude._denial_events n denials,
      ∃ ad, e = TakopiEvent.action ad ∧ ad.action.kind = .warning ∧
        ad.level = some .warning ∧ ad.ok = some false) ∧
    (s.did_emit_completed = false → evt.isDict = true →
     (evt.dGet "type").eqs "error" = false →
     (evt.dGet "type").eqs "turn.failed" = false →
     (evt.dGet "type").eqs "turn.completed" = false →
     ∀ s', (Codex.codex_step paths title expected s ⟨some evt, raw⟩).2 =
         .ok s' →
       s'.did_emit_completed = false) ∧
    (Claude.translate_claude_event paths event2 title st = .ok (es, st') →
     (∃ e ∈ es, e.isCompleted = true) →
     event2.dGet "type" = JVal.str "result") := by
  refine ⟨?_, ?_, ?_, ?_, ?_, ?_⟩
  · intro hdid hdict htype hT hN
    unfold Codex.codex_step
    rw [if_neg (show ¬(s.did_emit_completed = true) by simp [hdid])]
    dsimp only
    rw [if_pos hdict, if_pos htype,
      if_neg (show ¬(((evt.dGet "fatal").isTrue ||
          (evt.dGet "fatal").isNull) = true) by simp [hT, hN])]
  · intro hdid hdict h1 h2 h3
    unfold Codex.codex_step
    rw [if_neg (show ¬(s.did_emit_completed = true) by simp [hdid])]
    dsimp only
    rw [if_pos hdict,
      if_neg (show ¬((evt.dGet "type").eqs "error" = true) by simp [h1]),
      if_neg (show ¬((evt.dGet "type").eqs "turn.failed" = true) by simp [h2]),
      if_pos h3]
    cases hr : evt.dGet "retry_after_ms" <;> exact ⟨_, rfl⟩
  · intro e he
    unfold Codex._translate_error_item at he
    by_cases hp : phase = ActionPhase.completed
    · rw [if_pos hp] at he
      simp only [List.mem_singleton] at he
      subst he
      exact ⟨_, rfl, rfl, rfl, rfl⟩
    · rw [if_neg hp] at he
      simp at he
  · intro e he
    rcases denial_events_mem denials n e he with ⟨ad, h1, h2, h3, _, h5, _⟩
    exact ⟨ad, h1, h2, h3, h5⟩
  · intro hdid hdict h1 h2 h5c
    unfold Codex.codex_step
    rw [if_neg (show ¬(s.did_emit_completed = true) by simp [hdid])]
    dsimp only
    rw [if_pos hdict,
      if_neg (show ¬((evt.dGet "type").eqs "error" = true) by simp [h1]),
      if_neg (show ¬((evt.dGet "type").eqs "turn.failed" = true) by simp [h2])]
    by_cases h3 : (evt.dGet "type").eqs "turn.rate_limited" = true
    · rw [if_pos h3]
      cases hr : evt.dGet "retry_after_ms" <;> dsimp only <;>
        (intro s' hs
         simp only [Except.ok.injEq] at hs
         subst hs
         exact hdid)
    · rw [if_neg h3]
      by_cases h4 : (evt.dGet "type").eqs "turn.started" = true
      · rw [if_pos h4]
        intro s' hs
        simp only [Except.ok.injEq] at hs
        subst hs
        exact hdid
      · rw [if_neg h4,
          if_neg (show ¬((evt.dGet "type").eqs "turn.completed" = true)
            by simp [h5c])]
        cases hsn : Codex._sniff_agent_message s evt with
        | error e =>
            dsimp only
            intro s' hs
            simp at hs
        | ok s1 =>
            dsimp only
            cases htr : Codex.translate_codex_event paths evt title with
            | error e =>
                dsimp only
                intro s' hs
                simp at hs
            | ok evts =>
                dsimp only
                intro s' hs
                rw [codex_consume_did expected evts s1 s' hs,
                  (sniff_fields s evt s1 hsn).1]
                exact hdid
  · intro h hex
    rcases translate_claude_cases paths event2 title st st' es h with
      h0 | ⟨sd, h0, _, _⟩ | h0 | ⟨front, c, h0, _, htype, _, _⟩
    · obtain ⟨e, he, _⟩ := hex
      rw [h0] at he
      simp at he
    · obtain ⟨e, he, hc⟩ := hex
      rw [h0] at he
      simp only [List.mem_singleton] at he
      subst he
      simp [TakopiEvent.isCompleted] at hc
    · obtain ⟨e, he, hc⟩ := hex
      obtain ⟨ad, rfl⟩ := h0 e he
      simp [TakopiEvent.isCompleted] at hc
    · exact htype

/-- Witness for C6 at a concrete non-fatal codex error record: one
warning note is emitted and the run state stays non-terminal. -/
theorem c6_nonfatal_warning_continues_witness :
    Codex.codex_step idPaths "t" none Codex.initRunState
      ⟨some (.obj [("type", .str "error"), ("message", .str "slow down"),
        ("fatal", .bool false)]), ""⟩ =
      ([Codex._note_completed "codex.note.1" "slow down" false
          (some [("code", JVal.null), ("fatal", JVal.bool false)])],
       .ok { Codex.initRunState with note_seq := 1 }) :=
  (c6_nonfatal_warning_continues idPaths "t" "" none Codex.initRunState
    (.obj [("type", .str "error"), ("message", .str "slow down"),
      ("fatal", .bool false)]) JVal.null "" ActionPhase.completed 0 []
    JVal.null Claude.initStreamState Claude.initStreamState []).1
    rfl rfl rfl rfl rfl

end Takopi
